import Mathlib

set_option maxRecDepth 1000000

/-!
Verification development for the account authentication and lifecycle core
of the quiz-application repository: the in-memory user store
(`instances/user/userStore`), the credential and token codecs
(`utils/auth`), and the account lifecycle service
(`services/user/userService.ts`).

The TypeScript source is shallowly embedded: TS string-literal unions
become inductive types, ISO-8601 timestamps become epoch milliseconds
(`new Date(iso).getTime()` is the identity in the model, and
`Math.floor(Date.now() / 1000)` becomes division by 1000), the singleton
`Map`-backed store becomes a `List UserRecord` in insertion order, and
thrown `ServiceError`s become `Except ErrCode` results.  Node's
`crypto` primitives (SHA-256, HMAC-SHA256), `Buffer` base64/UTF-8
codecs and `JSON.stringify`/`JSON.parse` are implemented concretely
below so every definition is executable.
-/

/-! ## Bytes and 32-bit words

Bytes are `Nat` values below 256; 32-bit words are `Nat` values below
2^32, with overflow made explicit by reduction modulo `w32`. -/

def w32 : Nat := 4294967296

/-- Addition modulo 2^32, as performed on JS 32-bit word arithmetic in
the SHA-256 compression function. -/
def add32 (a b : Nat) : Nat := (a + b) % w32

/-- Bitwise complement on 32-bit words. -/
def not32 (v : Nat) : Nat := Nat.xor v (w32 - 1)

/-- Right rotation of a 32-bit word by `n` places. -/
def rotr32 (n v : Nat) : Nat := v / 2 ^ n + v % 2 ^ n * 2 ^ (32 - n)

/-! ## SHA-256

A direct implementation of FIPS 180-4 SHA-256 over byte lists, embedding
Node's `crypto.createHash('sha256')`, which `utils/auth` uses for
password hashing and (through HMAC) token signing. -/

/-- The 64 SHA-256 round constants. -/
def sha256K : List Nat :=
  [1116352408, 1899447441, 3049323471, 3921009573, 961987163, 1508970993,
   2453635748, 2870763221, 3624381080, 310598401, 607225278, 1426881987,
   1925078388, 2162078206, 2614888103, 3248222580, 3835390401, 4022224774,
   264347078, 604807628, 770255983, 1249150122, 1555081692, 1996064986,
   2554220882, 2821834349, 2952996808, 3210313671, 3336571891, 3584528711,
   113926993, 338241895, 666307205, 773529912, 1294757372, 1396182291,
   1695183700, 1986661051, 2177026350, 2456956037, 2730485921, 2820302411,
   3259730800, 3345764771, 3516065817, 3600352804, 4094571909, 275423344,
   430227734, 506948616, 659060556, 883997877, 958139571, 1322822218,
   1537002063, 1747873779, 1955562222, 2024104815, 2227730452, 2361852424,
   2428436474, 2756734187, 3204031479, 3329325298]

/-- The SHA-256 initial hash value. -/
def sha256H0 : List Nat :=
  [1779033703, 3144134277, 1013904242, 2773480762, 1359893119, 2600822924, 528734635, 1541459225]

def bsig0 (v : Nat) : Nat := Nat.xor (rotr32 2 v) (Nat.xor (rotr32 13 v) (rotr32 22 v))

def bsig1 (v : Nat) : Nat := Nat.xor (rotr32 6 v) (Nat.xor (rotr32 11 v) (rotr32 25 v))

def ssig0 (v : Nat) : Nat := Nat.xor (rotr32 7 v) (Nat.xor (rotr32 18 v) (v / 2 ^ 3))

def ssig1 (v : Nat) : Nat := Nat.xor (rotr32 17 v) (Nat.xor (rotr32 19 v) (v / 2 ^ 10))

def shaCh (e f g : Nat) : Nat := Nat.xor (Nat.land e f) (Nat.land (not32 e) g)

def shaMaj (a b c : Nat) : Nat :=
  Nat.xor (Nat.land a b) (Nat.xor (Nat.land a c) (Nat.land b c))

/-- Extend a 16-word message block to the 64-word SHA-256 message
schedule; `k` counts the words still to append. -/
def extendW (w : List Nat) : Nat → List Nat
  | 0 => w
  | k + 1 =>
    let n := w.length
    let next := (ssig1 (w.getD (n - 2) 0) + w.getD (n - 7) 0 +
                 ssig0 (w.getD (n - 15) 0) + w.getD (n - 16) 0) % w32
    extendW (w ++ [next]) k

/-- One step of the SHA-256 compression loop over (round constant,
schedule word) pairs. -/
def compLoop : List (Nat × Nat) → List Nat → List Nat
  | [], st => st
  | (kt, wt) :: rest, st =>
    let a := st.getD 0 0
    let b := st.getD 1 0
    let c := st.getD 2 0
    let d := st.getD 3 0
    let e := st.getD 4 0
    let f := st.getD 5 0
    let g := st.getD 6 0
    let h := st.getD 7 0
    let t1 := (h + bsig1 e + shaCh e f g + kt + wt) % w32
    let t2 := (bsig0 a + shaMaj a b c) % w32
    compLoop rest [(t1 + t2) % w32, a, b, c, (d + t1) % w32, e, f, g]

/-- Compress one 16-word block into the running hash state. -/
def sha256Compress (hs : List Nat) (block : List Nat) : List Nat :=
  let w := extendW block 48
  let st := compLoop (sha256K.zip w) hs
  (hs.zip st).map (fun p => (p.1 + p.2) % w32)

/-- Big-endian 8-byte encoding of the message bit length. -/
def be64 (n : Nat) : List Nat :=
  [n / 2 ^ 56 % 256, n / 2 ^ 48 % 256, n / 2 ^ 40 % 256, n / 2 ^ 32 % 256,
   n / 2 ^ 24 % 256, n / 2 ^ 16 % 256, n / 2 ^ 8 % 256, n % 256]

/-- Big-endian 4-byte encoding of a 32-bit word. -/
def be32 (n : Nat) : List Nat :=
  [n / 2 ^ 24 % 256, n / 2 ^ 16 % 256, n / 2 ^ 8 % 256, n % 256]

/-- SHA-256 padding: append 0x80, zeros to 56 mod 64, then the 64-bit
big-endian bit length. -/
def padMsg (m : List Nat) : List Nat :=
  m ++ 0x80 :: List.replicate ((55 - m.length % 64 + 64) % 64) 0 ++ be64 (m.length * 8)

/-- Group bytes into big-endian 32-bit words (input length is a multiple
of 4 for padded messages). -/
def bytesToWords : List Nat → List Nat
  | b1 :: b2 :: b3 :: b4 :: rest => (((b1 * 256 + b2) * 256 + b3) * 256 + b4) :: bytesToWords rest
  | _ => []

/-- Group words into 16-word blocks (input length is a multiple of 16
for padded messages). -/
def wordsToBlocks : List Nat → List (List Nat)
  | w1 :: w2 :: w3 :: w4 :: w5 :: w6 :: w7 :: w8 ::
    w9 :: w10 :: w11 :: w12 :: w13 :: w14 :: w15 :: w16 :: rest =>
    [w1, w2, w3, w4, w5, w6, w7, w8, w9, w10, w11, w12, w13, w14, w15, w16] :: wordsToBlocks rest
  | _ => []

/-- SHA-256 digest of a byte list, as 32 bytes. -/
def sha256 (m : List Nat) : List Nat :=
  (((wordsToBlocks (bytesToWords (padMsg m))).foldl sha256Compress sha256H0).map be32).flatten

/-! ## UTF-8

`Buffer.from(string)` encodes a JS string as UTF-8 bytes and
`buffer.toString()` decodes them; both are used by the token codec in
`utils/auth`.  Lean `Char`s are Unicode scalar values, so the encoder
below is total; the decoder is exercised only on encoder output (Node's
replacement-character handling of ill-formed input is never reached by
the codec on its own output). -/

/-- UTF-8 encoding of a single Unicode scalar value. -/
def utf8EncodeChar (c : Char) : List Nat :=
  let v := c.toNat
  if v < 0x80 then [v]
  else if v < 0x800 then [0xc0 + v / 64, 0x80 + v % 64]
  else if v < 0x10000 then [0xe0 + v / 4096, 0x80 + v / 64 % 64, 0x80 + v % 64]
  else [0xf0 + v / 262144, 0x80 + v / 4096 % 64, 0x80 + v / 64 % 64, 0x80 + v % 64]

/-- UTF-8 encoding of a character list. -/
def utf8Encode : List Char → List Nat
  | [] => []
  | c :: rest => utf8EncodeChar c ++ utf8Encode rest

/-- Whether a byte is a UTF-8 continuation byte. -/
def isCont (b : Nat) : Bool := 0x80 ≤ b && b < 0xc0

/-- Decode one UTF-8 scalar from the front of a byte list. -/
def utf8Step : List Nat → Option (Char × List Nat)
  | [] => none
  | b1 :: t1 =>
    if b1 < 0x80 then some (Char.ofNat b1, t1)
    else if b1 < 0xc0 then none
    else if b1 < 0xe0 then
      match t1 with
      | b2 :: t2 =>
        if isCont b2 then some (Char.ofNat ((b1 - 0xc0) * 64 + (b2 - 0x80)), t2) else none
      | [] => none
    else if b1 < 0xf0 then
      match t1 with
      | b2 :: b3 :: t3 =>
        if isCont b2 && isCont b3 then
          some (Char.ofNat (((b1 - 0xe0) * 64 + (b2 - 0x80)) * 64 + (b3 - 0x80)), t3)
        else none
      | _ => none
    else
      match t1 with
      | b2 :: b3 :: b4 :: t4 =>
        if isCont b2 && isCont b3 && isCont b4 then
          some (Char.ofNat ((((b1 - 0xf0) * 64 + (b2 - 0x80)) * 64 + (b3 - 0x80)) * 64 +
            (b4 - 0x80)), t4)
        else none
      | _ => none

/-- Fuelled UTF-8 decoding loop; each step consumes at least one byte,
so byte-list length is sufficient fuel. -/
def utf8DecodeAux : Nat → List Nat → Option (List Char)
  | _, [] => some []
  | 0, _ :: _ => none
  | fuel + 1, b :: t =>
    match utf8Step (b :: t) with
    | none => none
    | some (c, rest) => (utf8DecodeAux fuel rest).map (fun cs => c :: cs)

/-- UTF-8 decoding, defined on well-formed encoder output. -/
def utf8Decode (l : List Nat) : Option (List Char) :=
  utf8DecodeAux l.length l

/-! ## Base64

`Buffer.prototype.toString('base64')` and `Buffer.from(s, 'base64')`,
used for the token header, payload and signature components.  The
decoder is strict on the 4-character groups the encoder emits; Node's
forgiving decoder agrees with it on encoder output, which is the only
input the token codec feeds it on the paths the claims exercise. -/

/-- The standard base64 alphabet, as a character list. -/
def b64Alphabet : List Char :=
  "ABCDEFGHIJKLMNOPQRSTUVWXYZabcdefghijklmnopqrstuvwxyz0123456789+/".data

/-- The base64 character for a 6-bit value. -/
def b64Char (v : Nat) : Char := b64Alphabet.getD v 'A'

/-- Inverse of `b64Char` on the alphabet. -/
def b64Val (c : Char) : Option Nat := b64Alphabet.findIdx? (· == c)

/-- Base64 encoding of a byte list, with `=` padding. -/
def b64Encode : List Nat → List Char
  | a :: b :: c :: rest =>
    b64Char (a / 4) :: b64Char (a % 4 * 16 + b / 16) ::
    b64Char (b % 16 * 4 + c / 64) :: b64Char (c % 64) :: b64Encode rest
  | [a, b] => [b64Char (a / 4), b64Char (a % 4 * 16 + b / 16), b64Char (b % 16 * 4), '=']
  | [a] => [b64Char (a / 4), b64Char (a % 4 * 16), '=', '=']
  | [] => []

/-- Base64 decoding of well-formed encoder output. -/
def b64Decode : List Char → Option (List Nat)
  | [] => some []
  | c1 :: c2 :: c3 :: c4 :: rest =>
    match b64Val c1, b64Val c2 with
    | some v1, some v2 =>
      if c3 = '=' then
        if c4 = '=' ∧ rest = [] then some [v1 * 4 + v2 / 16] else none
      else
        match b64Val c3 with
        | some v3 =>
          if c4 = '=' then
            if rest = [] then some [v1 * 4 + v2 / 16, v2 % 16 * 16 + v3 / 4] else none
          else
            match b64Val c4 with
            | some v4 =>
              (b64Decode rest).map (fun bs =>
                (v1 * 4 + v2 / 16) :: (v2 % 16 * 16 + v3 / 4) :: (v3 % 4 * 64 + v4) :: bs)
            | none => none
        | none => none
    | _, _ => none
  | _ => none

/-! ## Hex digests

`hash.digest('hex')`, used by `hashPassword`. -/

/-- Lowercase hex digit for a value below 16. -/
def hexDigit (v : Nat) : Char :=
  if v < 10 then Char.ofNat (48 + v) else Char.ofNat (87 + v)

/-- Lowercase hex encoding of a byte list. -/
def hexChars (bs : List Nat) : List Char :=
  (bs.map (fun b => [hexDigit (b / 16), hexDigit (b % 16)])).flatten

/-! ## Credential codec (`utils/auth`: hashPassword, comparePassword) -/

/-- `hashPassword`: the lowercase hex SHA-256 digest of the UTF-8
encoded password. -/
def hashPassword (password : String) : String :=
  String.mk (hexChars (sha256 (utf8Encode password.data)))

/-- `comparePassword`: rehash and compare for string equality. -/
def comparePassword (password hash : String) : Bool :=
  hashPassword password == hash

/-! ## HMAC-SHA256 token signature

`crypto.createHmac('sha256', 'secret-key')`, used by `generateToken`
and `verifyToken`. -/

/-- The static signing key bytes, the UTF-8 bytes of `secret-key`
(10 ASCII bytes), zero-padded to the 64-byte SHA-256 block size. -/
def hmacKeyBlock : List Nat := utf8Encode "secret-key".data ++ List.replicate 54 0

/-- HMAC-SHA256 with the static key. -/
def hmacSha256 (msg : List Nat) : List Nat :=
  sha256 (hmacKeyBlock.map (fun b => Nat.xor b 0x5c) ++
    sha256 (hmacKeyBlock.map (fun b => Nat.xor b 0x36) ++ msg))

/-- `digest('base64')` of the HMAC over a character message. -/
def hmacSig (msg : List Char) : List Char :=
  b64Encode (hmacSha256 (utf8Encode msg))

/-! ## JSON payload codec

`generateToken` serialises its payload with `JSON.stringify`, which on
the object literal `\x7b...payload, iat, exp\x7d` emits the keys in
insertion order: `id`, `username`, `profile`, `iat`, `exp`.
`verifyToken` reads it back with `JSON.parse`.  `jsonEscape` is
ECMA-404/ECMA-262 string quoting (quote, backslash, and control
characters escaped); `parsePayload` models `JSON.parse` specialised to
the exact object shape this codec emits, failing on anything else —
on the claims' code paths the parser only ever receives
`payloadJson` output. -/

/-- The claims the service binds into a token: `\x7bid, username, profile\x7d`. -/
structure TokenClaims where
  id : String
  username : String
  profile : String
deriving DecidableEq, Repr

/-- The decoded token payload: the claims plus `iat` and `exp`
(Unix seconds). -/
structure TokenPayload where
  id : String
  username : String
  profile : String
  iat : Nat
  exp : Nat
deriving DecidableEq, Repr

/-- JSON escaping of one character, as `JSON.stringify` performs it. -/
def escChar (c : Char) : List Char :=
  if c = '"' then ['\\', '"']
  else if c = '\\' then ['\\', '\\']
  else if c.toNat = 8 then ['\\', 'b']
  else if c.toNat = 9 then ['\\', 't']
  else if c.toNat = 10 then ['\\', 'n']
  else if c.toNat = 12 then ['\\', 'f']
  else if c.toNat = 13 then ['\\', 'r']
  else if c.toNat < 32 then ['\\', 'u', '0', '0', hexDigit (c.toNat / 16), hexDigit (c.toNat % 16)]
  else [c]

/-- JSON escaping of a character list. -/
def jsonEscape : List Char → List Char
  | [] => []
  | c :: rest => escChar c ++ jsonEscape rest

/-- Decimal digit characters of a natural number, most significant
first, as `JSON.stringify` renders a non-negative integer. -/
def natChars (n : Nat) : List Char :=
  if n = 0 then ['0'] else ((Nat.digits 10 n).map (fun d => Char.ofNat (48 + d))).reverse

/-- The serialised token payload:
`\x7b"id":"...","username":"...","profile":"...","iat":n,"exp":n\x7d`
(the closing quote of each string value is written as an explicit
`'"' ::` so that each segment boundary is visible to the parser
lemmas; the character sequence is exactly `JSON.stringify` output). -/
def payloadJson (p : TokenPayload) : List Char :=
  "\x7b\"id\":\"".data ++ (jsonEscape p.id.data ++ '"' ::
    (",\"username\":\"".data ++ (jsonEscape p.username.data ++ '"' ::
    (",\"profile\":\"".data ++ (jsonEscape p.profile.data ++ '"' ::
    (",\"iat\":".data ++ (natChars p.iat ++
    (",\"exp\":".data ++ (natChars p.exp ++ "\x7d".data)))))))))

/-- The serialised token header `\x7b"alg":"HS256","typ":"JWT"\x7d`. -/
def headerJson : List Char := "\x7b\"alg\":\"HS256\",\"typ\":\"JWT\"\x7d".data

/-- Strip an expected literal prefix, yielding the remainder. -/
def expectChars (l : List Char) (pre : List Char) : Option (List Char) :=
  match pre, l with
  | [], rest => some rest
  | _ :: _, [] => none
  | e :: pre, c :: t => if c = e then expectChars t pre else none

/-- Hex digit value, for `\uXXXX` escapes. -/
def hexVal (c : Char) : Option Nat :=
  let v := c.toNat
  if 48 ≤ v ∧ v ≤ 57 then some (v - 48)
  else if 97 ≤ v ∧ v ≤ 102 then some (v - 87)
  else if 65 ≤ v ∧ v ≤ 70 then some (v - 55)
  else none

/-- Prepend a character to the string component of a reader result. -/
def consRead (c : Char) (o : Option (List Char × List Char)) : Option (List Char × List Char) :=
  o.map (fun pr => (c :: pr.1, pr.2))

/-- The character denoted by a single-character JSON escape. -/
def readEsc (e : Char) : Option Char :=
  if e = '"' ∨ e = '\\' ∨ e = '/' then some e
  else if e = 'b' then some (Char.ofNat 8)
  else if e = 't' then some (Char.ofNat 9)
  else if e = 'n' then some (Char.ofNat 10)
  else if e = 'f' then some (Char.ofNat 12)
  else if e = 'r' then some (Char.ofNat 13)
  else none

/-- The outcome of reading one lexical element of a JSON string body:
its closing quote, one (possibly escaped) character, or a syntax
error. -/
inductive StrStep where
  | done (rest : List Char)
  | chr (c : Char) (rest : List Char)
  | fail
deriving DecidableEq

/-- Read one lexical element of a JSON string body; raw control
characters are rejected as in `JSON.parse`. -/
def readStrStep : List Char → StrStep
  | [] => .fail
  | c :: rest =>
    if c = '"' then .done rest
    else if c = '\\' then
      match rest with
      | [] => .fail
      | e :: rest2 =>
        if e = 'u' then
          match rest2 with
          | a :: b :: c2 :: d :: rest3 =>
            match hexVal a, hexVal b, hexVal c2, hexVal d with
            | some va, some vb, some vc, some vd =>
              .chr (Char.ofNat (((va * 16 + vb) * 16 + vc) * 16 + vd)) rest3
            | _, _, _, _ => .fail
          | _ => .fail
        else
          match readEsc e with
          | some ch => .chr ch rest2
          | none => .fail
    else if c.toNat < 32 then .fail
    else .chr c rest

/-- Fuelled loop reading a JSON string body up to its closing quote;
each step consumes at least one character, so input length is
sufficient fuel. -/
def readJsonStrAux : Nat → List Char → Option (List Char × List Char)
  | 0, _ => none
  | fuel + 1, l =>
    match readStrStep l with
    | .done rest => some ([], rest)
    | .chr c rest => consRead c (readJsonStrAux fuel rest)
    | .fail => none

/-- Read a JSON string body up to its closing quote (the opening quote
already consumed), undoing `jsonEscape`. -/
def readJsonStr (l : List Char) : Option (List Char × List Char) :=
  readJsonStrAux l.length l

/-- Read a run of decimal digits into a value, most significant
first. -/
def readDigits : List Char → Nat → Nat × List Char
  | c :: rest, acc =>
    if c.isDigit then readDigits rest (acc * 10 + (c.toNat - 48)) else (acc, c :: rest)
  | [], acc => (acc, [])

/-- Read a non-negative JSON integer (at least one digit). -/
def readNat : List Char → Option (Nat × List Char)
  | c :: rest => if c.isDigit then some (readDigits (c :: rest) 0) else none
  | [] => none

/-- `JSON.parse`, specialised to the payload object shape emitted by
`payloadJson`. -/
def parsePayload (l : List Char) : Option TokenPayload :=
  (expectChars l "\x7b\"id\":\"".data).bind fun l =>
  (readJsonStr l).bind fun pr =>
  let idS := pr.1
  (expectChars pr.2 ",\"username\":\"".data).bind fun l =>
  (readJsonStr l).bind fun pr =>
  let unS := pr.1
  (expectChars pr.2 ",\"profile\":\"".data).bind fun l =>
  (readJsonStr l).bind fun pr =>
  let prS := pr.1
  (expectChars pr.2 ",\"iat\":".data).bind fun l =>
  (readNat l).bind fun pr =>
  let iat := pr.1
  (expectChars pr.2 ",\"exp\":".data).bind fun l =>
  (readNat l).bind fun pr =>
  let exp := pr.1
  (expectChars pr.2 "\x7d".data).bind fun l =>
  if l = [] then some ⟨String.mk idS, String.mk unS, String.mk prS, iat, exp⟩ else none

/-! ## Token codec (`utils/auth`: generateToken, verifyToken)

`generateToken` has no parameters beyond the payload in the source; the
ambient `Math.floor(Date.now() / 1000)` becomes the explicit `nowSec`
argument (the source reads the clock twice for `iat` and `exp`; the
model takes the single instant both reads observe). -/

/-- The base64 token header component. -/
def headerB64 : List Char := b64Encode (utf8Encode headerJson)

/-- The base64 token body component for given claims and issue time. -/
def bodyB64 (c : TokenClaims) (nowSec : Nat) : List Char :=
  b64Encode (utf8Encode (payloadJson ⟨c.id, c.username, c.profile, nowSec, nowSec + 24 * 60 * 60⟩))

/-- The signature component: HMAC-SHA256 over `header.body`, base64. -/
def sigOf (c : TokenClaims) (nowSec : Nat) : List Char :=
  hmacSig (headerB64 ++ '.' :: bodyB64 c nowSec)

/-- A token assembled from the standard header/body but an arbitrary
signature component. -/
def tokenWithSig (c : TokenClaims) (nowSec : Nat) (sig : List Char) : List Char :=
  headerB64 ++ '.' :: bodyB64 c nowSec ++ '.' :: sig

/-- `generateToken`: `header.body.signature`. -/
def generateToken (c : TokenClaims) (nowSec : Nat) : List Char :=
  tokenWithSig c nowSec (sigOf c nowSec)

/-- `String.prototype.split('.')`, on character lists. -/
def splitDot : List Char → List (List Char)
  | [] => [[]]
  | c :: rest =>
    if c = '.' then [] :: splitDot rest
    else
      match splitDot rest with
      | [] => [[c]]
      | h :: t => (c :: h) :: t

/-- The string a JS template literal renders for a possibly-undefined
component: the component itself, or the text `undefined`. -/
def jsStr : Option (List Char) → List Char
  | some s => s
  | none => "undefined".data

/-- `verifyToken`.  Destructuring `[header, body, signature]` from the
split takes the first three components and ignores any further ones; a
missing (`undefined`) signature can never equal the recomputed string,
and every failure (signature mismatch, unparsable payload, expiry) is
caught and collapsed to the single `Invalid token` outcome, modelled as
`none`. -/
def verifyToken (token : List Char) (nowSec : Nat) : Option TokenPayload :=
  let parts := splitDot token
  let expected := hmacSig (jsStr (parts.get? 0) ++ '.' :: jsStr (parts.get? 1))
  match parts.get? 2 with
  | none => none
  | some sig =>
    if sig ≠ expected then none
    else
      match (parts.get? 1).bind (fun b => b64Decode b) with
      | none => none
      | some bytes =>
        match utf8Decode bytes with
        | none => none
        | some jsonChars =>
          match parsePayload jsonChars with
          | none => none
          | some p => if p.exp < nowSec then none else some p

/-! ## Account store (`instances/user/userStore`)

The singleton `UserStore` wraps a `Map<string, UserRecord>` keyed by
`id`; the model is the list of records in insertion order (JS `Map`
iteration order, which `Map.set` on an existing key preserves).  TS
string-literal unions become inductive types; ISO timestamp strings
become epoch milliseconds (`Option Nat` for the nullable
`lastLoginAttempt`). -/

/-- `'ativo' | 'inativo' | 'bloqueado' | 'pendente'` (the spec's
active / inactive / locked / pending). -/
inductive UserStatus where
  | ativo
  | inativo
  | bloqueado
  | pendente
deriving DecidableEq, Repr

/-- `'iniciante' | 'experiente' | 'administrador'` (the spec's tiers
novice / experienced / administrator). -/
inductive UserTier where
  | iniciante
  | experiente
  | administrador
deriving DecidableEq, Repr

/-- The literal string value of a tier, as stored in token claims. -/
def UserTier.str : UserTier → String
  | .iniciante => "iniciante"
  | .experiente => "experiente"
  | .administrador => "administrador"

/-- The `UserRecord` / `UserEntity` interface. -/
structure UserRecord where
  id : String
  username : String
  email : String
  passwordHash : String
  profile : UserTier
  avatar : Option String
  status : UserStatus
  loginAttempts : Nat
  lastLoginAttempt : Option Nat
  dateCreated : Nat
  dateModified : Nat
deriving DecidableEq, Repr

/-- Lowercasing of one character, on the ASCII range. -/
def jsLowerChar (c : Char) : Char :=
  if 'A' ≤ c ∧ c ≤ 'Z' then Char.ofNat (c.toNat + 32) else c

/-- JS `String.prototype.toLowerCase`, restricted to the ASCII range
(usernames are validated to be ASCII alphanumerics; the full Unicode
case table is not needed by any claim). -/
def jsLower (s : String) : String := String.mk (s.data.map jsLowerChar)

/-- `UserStore.getById`: `Map.get` by key. -/
def getById (store : List UserRecord) (id : String) : Option UserRecord :=
  store.find? (fun r => r.id == id)

/-- `UserStore.findByUsername`: first record whose lowercased username
equals the lowercased argument. -/
def findByUsername (store : List UserRecord) (username : String) : Option UserRecord :=
  store.find? (fun r => jsLower r.username == jsLower username)

/-- `UserStore.findByEmail`: first record whose lowercased email equals
the lowercased argument. -/
def findByEmail (store : List UserRecord) (email : String) : Option UserRecord :=
  store.find? (fun r => jsLower r.email == jsLower email)

/-- `UserStore.add` (`Map.set`): replace in place when the id exists,
else append. -/
def addRecord (store : List UserRecord) (rec : UserRecord) : List UserRecord :=
  if store.any (fun r => r.id == rec.id) then
    store.map (fun r => if r.id == rec.id then rec else r)
  else store ++ [rec]

/-- `UserStore.update`: merge fields into the record with the given id,
leaving its position unchanged.  Each call site's `\x7b...existing,
...data\x7d` spread becomes the merge function `f`; a missing id leaves
the store unchanged (the caller gets `undefined`). -/
def updateRecord (store : List UserRecord) (id : String) (f : UserRecord → UserRecord) :
    List UserRecord :=
  store.map (fun r => if r.id == id then f r else r)

/-! ## Error taxonomy (`ServiceError` codes)

The spec writes `ACCOUNT_LOCKED` for the source's `ACCOUNT_BLOCKED` and
`INVALID_TOKEN` for the token codec's collapsed failure; the embedding
keeps the source's names. -/

inductive ErrCode where
  | VALIDATION_ERROR
  | DUPLICATE_USERNAME
  | DUPLICATE_EMAIL
  | INVALID_CREDENTIALS
  | ACCOUNT_PENDING
  | ACCOUNT_BLOCKED
  | NOT_FOUND
  | INVALID_TOKEN
deriving DecidableEq, Repr

/-- `UserProfileResponse`: the public projection (no credential hash,
no lockout counters). -/
structure UserProfileResponse where
  id : String
  username : String
  email : String
  profile : UserTier
  avatar : Option String
  status : UserStatus
  dateCreated : Nat
deriving DecidableEq, Repr

/-- `UserLoginResponse`: public identity plus the issued token. -/
structure UserLoginResponse where
  id : String
  username : String
  email : String
  profile : UserTier
  token : String
deriving DecidableEq, Repr

/-! ## Account lifecycle service (`services/user/userService.ts`)

The service functions are embedded at the validated-input boundary the
spec's §6 describes: the zod shape validation (`registerSchema`,
`loginSchema`, `updateSchema`, `paramsSchema`) is the out-of-scope
collaborator, so the embeddings take the already-validated fields and
cover everything from the duplicate/lookup logic onward.  Each returns
the new store contents together with the result, making the mutation of
the singleton store explicit. -/

/-- `userRegister` after `registerSchema` validation.  `newId` is the
value `userStore.generateId()` returns; `now` is the instant
`new Date().toISOString()` observes. -/
def userRegister (store : List UserRecord) (username email password : String)
    (profile : UserTier) (now : Nat) (newId : String) :
    List UserRecord × Except ErrCode UserProfileResponse :=
  if (findByUsername store username).isSome then
    (store, .error .DUPLICATE_USERNAME)
  else if (findByEmail store email).isSome then
    (store, .error .DUPLICATE_EMAIL)
  else
    let newUser : UserRecord :=
      { id := newId, username := username, email := email,
        passwordHash := hashPassword password, profile := profile, avatar := none,
        status := .pendente, loginAttempts := 0, lastLoginAttempt := none,
        dateCreated := now, dateModified := now }
    (addRecord store newUser,
     .ok { id := newUser.id, username := newUser.username, email := newUser.email,
           profile := newUser.profile, avatar := newUser.avatar, status := newUser.status,
           dateCreated := newUser.dateCreated })

/-- `userStore.findByUsername(u) || userStore.findByEmail(u)`: username
lookup wins the tie-break. -/
def resolveUser (store : List UserRecord) (username : String) : Option UserRecord :=
  match findByUsername store username with
  | some u => some u
  | none => findByEmail store username

/-- The remainder of `userLogin` after the blocked-status branch.
Crucially, `user` is the record object read before any store update:
`userStore.update` builds a new object, so after the automatic unblock
the local still carries the pre-unblock `loginAttempts` and `status`,
and the failed-attempt increment below reads that stale count. -/
def loginContinue (store : List UserRecord) (user : UserRecord) (password : String)
    (now : Nat) : List UserRecord × Except ErrCode UserLoginResponse :=
  if user.status = .pendente then
    (store, .error .ACCOUNT_PENDING)
  else if comparePassword password user.passwordHash then
    (updateRecord store user.id (fun r => { r with loginAttempts := 0, lastLoginAttempt := none }),
     .ok { id := user.id, username := user.username, email := user.email,
           profile := user.profile,
           token := String.mk (generateToken ⟨user.id, user.username, user.profile.str⟩
             (now / 1000)) })
  else
    let newAttempts := user.loginAttempts + 1
    if newAttempts ≥ 3 then
      (updateRecord store user.id (fun r =>
        { r with loginAttempts := newAttempts, lastLoginAttempt := some now,
                 status := .bloqueado }),
       .error .ACCOUNT_BLOCKED)
    else
      (updateRecord store user.id (fun r =>
        { r with loginAttempts := newAttempts, lastLoginAttempt := some now }),
       .error .INVALID_CREDENTIALS)

/-- `userLogin` after `loginSchema` validation.  `now` is the epoch
instant both `Date.now()` and `new Date().toISOString()` observe; the
30-minute comparison is signed as in JS. -/
def userLogin (store : List UserRecord) (username password : String) (now : Nat) :
    List UserRecord × Except ErrCode UserLoginResponse :=
  match resolveUser store username with
  | none => (store, .error .INVALID_CREDENTIALS)
  | some user =>
    if user.status = .bloqueado then
      if (now : Int) - (user.lastLoginAttempt.getD 0 : Nat) < 30 * 60 * 1000 then
        (store, .error .ACCOUNT_BLOCKED)
      else
        loginContinue
          (updateRecord store user.id (fun r =>
            { r with status := .ativo, loginAttempts := 0, lastLoginAttempt := none }))
          user password now
    else loginContinue store user password now

/-- The validated `updateSchema` body: each field is present or absent
(truthiness and presence coincide after validation, which rejects empty
strings), and a present `avatar` may be `null`. -/
structure UpdateInput where
  username : Option String
  email : Option String
  profile : Option UserTier
  avatar : Option (Option String)
deriving DecidableEq, Repr

/-- `userUpdateProfile` after `paramsSchema` / `updateSchema`
validation. -/
def userUpdateProfile (store : List UserRecord) (id : String) (upd : UpdateInput)
    (now : Nat) : List UserRecord × Except ErrCode UserProfileResponse :=
  match getById store id with
  | none => (store, .error .NOT_FOUND)
  | some user =>
    if upd.username.any (fun un => un != user.username &&
        (findByUsername store un).isSome) then
      (store, .error .DUPLICATE_USERNAME)
    else if upd.email.any (fun em => em != user.email &&
        (findByEmail store em).isSome) then
      (store, .error .DUPLICATE_EMAIL)
    else
      let merge : UserRecord → UserRecord := fun r =>
        { r with username := upd.username.getD r.username,
                 email := upd.email.getD r.email,
                 profile := upd.profile.getD r.profile,
                 avatar := upd.avatar.getD r.avatar,
                 dateModified := now }
      let updated := merge user
      (updateRecord store id merge,
       .ok { id := updated.id, username := updated.username, email := updated.email,
             profile := updated.profile, avatar := updated.avatar, status := updated.status,
             dateCreated := updated.dateCreated })

/-! ## Lemmas: splitDot -/

theorem splitDot_ne_nil (l : List Char) : splitDot l ≠ [] := by
  induction l with
  | nil => simp [splitDot]
  | cons c rest ih =>
    simp only [splitDot]
    split
    · simp
    · cases h : splitDot rest with
      | nil => simp
      | cons a t => simp

theorem splitDot_no_dot (l : List Char) (h : '.' ∉ l) : splitDot l = [l] := by
  induction l with
  | nil => rfl
  | cons c rest ih =>
    simp only [List.mem_cons, not_or] at h
    have hc : ¬(c = '.') := fun e => h.1 e.symm
    simp only [splitDot, ih h.2, if_neg hc]

theorem splitDot_append_dot (xs ys : List Char) (h : '.' ∉ xs) :
    splitDot (xs ++ '.' :: ys) = xs :: splitDot ys := by
  induction xs with
  | nil => simp [splitDot]
  | cons c rest ih =>
    simp only [List.mem_cons, not_or] at h
    have hc : ¬(c = '.') := fun e => h.1 e.symm
    show splitDot (c :: (rest ++ '.' :: ys)) = (c :: rest) :: splitDot ys
    rw [splitDot, if_neg hc, ih h.2]

/-! ## Lemmas: base64 -/

theorem b64Char_ne_dot (v : Nat) : b64Char v ≠ '.' := by
  by_cases h : v < 64
  · have : ∀ w : Fin 64, b64Char w.val ≠ '.' := by decide
    exact this ⟨v, h⟩
  · have hlen : b64Alphabet.length ≤ v := by
      have : b64Alphabet.length = 64 := by decide
      omega
    simp only [b64Char, List.getD_eq_getElem?_getD, List.getElem?_eq_none hlen]
    decide

theorem b64Char_ne_eq (v : Nat) : b64Char v ≠ '=' := by
  by_cases h : v < 64
  · have : ∀ w : Fin 64, b64Char w.val ≠ '=' := by decide
    exact this ⟨v, h⟩
  · have hlen : b64Alphabet.length ≤ v := by
      have : b64Alphabet.length = 64 := by decide
      omega
    simp only [b64Char, List.getD_eq_getElem?_getD, List.getElem?_eq_none hlen]
    decide

theorem b64Val_b64Char (v : Nat) (h : v < 64) : b64Val (b64Char v) = some v := by
  have : ∀ w : Fin 64, b64Val (b64Char w.val) = some w.val := by decide
  exact this ⟨v, h⟩

theorem b64Encode_no_dot (bs : List Nat) : '.' ∉ b64Encode bs := by
  induction bs using b64Encode.induct with
  | case1 a b c rest ih =>
    intro hmem
    simp only [b64Encode, List.mem_cons] at hmem
    rcases hmem with h | h | h | h | h
    · exact b64Char_ne_dot _ h.symm
    · exact b64Char_ne_dot _ h.symm
    · exact b64Char_ne_dot _ h.symm
    · exact b64Char_ne_dot _ h.symm
    · exact ih h
  | case2 a b =>
    show '.' ∉ [b64Char (a / 4), b64Char (a % 4 * 16 + b / 16), b64Char (b % 16 * 4), '=']
    intro hmem
    simp only [List.mem_cons, List.not_mem_nil, or_false] at hmem
    rcases hmem with h | h | h | h
    · exact b64Char_ne_dot _ h.symm
    · exact b64Char_ne_dot _ h.symm
    · exact b64Char_ne_dot _ h.symm
    · exact absurd h (by decide)
  | case3 a =>
    show '.' ∉ [b64Char (a / 4), b64Char (a % 4 * 16), '=', '=']
    intro hmem
    simp only [List.mem_cons, List.not_mem_nil, or_false] at hmem
    rcases hmem with h | h | h | h
    · exact b64Char_ne_dot _ h.symm
    · exact b64Char_ne_dot _ h.symm
    · exact absurd h (by decide)
    · exact absurd h (by decide)
  | case4 => simp [b64Encode]

theorem b64Encode_length (bs : List Nat) :
    (b64Encode bs).length = (bs.length + 2) / 3 * 4 := by
  induction bs using b64Encode.induct with
  | case1 a b c rest ih =>
    simp only [b64Encode, List.length_cons, ih]
    omega
  | case2 a b => simp [b64Encode]
  | case3 a => simp [b64Encode]
  | case4 => simp [b64Encode]

theorem b64_roundtrip (bs : List Nat) (hb : ∀ b ∈ bs, b < 256) :
    b64Decode (b64Encode bs) = some bs := by
  induction bs using b64Encode.induct with
  | case1 a b c rest ih =>
    have ha : a < 256 := hb a (by simp)
    have hbb : b < 256 := hb b (by simp)
    have hc : c < 256 := hb c (by simp)
    have hrest : ∀ x ∈ rest, x < 256 := fun x hx => hb x (by simp [hx])
    have e1 : a / 4 * 4 + (a % 4 * 16 + b / 16) / 16 = a := by omega
    have e2 : (a % 4 * 16 + b / 16) % 16 * 16 + (b % 16 * 4 + c / 64) / 4 = b := by omega
    have e3 : (b % 16 * 4 + c / 64) % 4 * 64 + c % 64 = c := by omega
    simp only [b64Encode, b64Decode,
      b64Val_b64Char (a / 4) (by omega), b64Val_b64Char (a % 4 * 16 + b / 16) (by omega),
      b64Val_b64Char (b % 16 * 4 + c / 64) (by omega), b64Val_b64Char (c % 64) (by omega),
      if_neg (b64Char_ne_eq _), ih hrest, Option.map_some', e1, e2, e3]
  | case2 a b =>
    have ha : a < 256 := hb a (by simp)
    have hbb : b < 256 := hb b (by simp)
    have e1 : a / 4 * 4 + (a % 4 * 16 + b / 16) / 16 = a := by omega
    have e2 : (a % 4 * 16 + b / 16) % 16 * 16 + (b % 16 * 4) / 4 = b := by omega
    simp only [b64Encode, b64Decode,
      b64Val_b64Char (a / 4) (by omega), b64Val_b64Char (a % 4 * 16 + b / 16) (by omega),
      b64Val_b64Char (b % 16 * 4) (by omega),
      if_neg (b64Char_ne_eq _), eq_self_iff_true, if_true, e1, e2]
  | case3 a =>
    have ha : a < 256 := hb a (by simp)
    have e1 : a / 4 * 4 + (a % 4 * 16) / 16 = a := by omega
    simp only [b64Encode, b64Decode,
      b64Val_b64Char (a / 4) (by omega), b64Val_b64Char (a % 4 * 16) (by omega),
      eq_self_iff_true, and_self, if_true, e1]
  | case4 => rfl

/-! ## Lemmas: UTF-8 -/

theorem char_toNat_lt (c : Char) : c.toNat < 1114112 := by
  have h := c.valid
  rcases h with h | ⟨_, h⟩ <;> exact Nat.lt_of_lt_of_le h (by norm_num)

theorem utf8EncodeChar_lt (c : Char) : ∀ b ∈ utf8EncodeChar c, b < 256 := by
  intro b hb
  have hv := char_toNat_lt c
  simp only [utf8EncodeChar] at hb
  split at hb
  · simp only [List.mem_singleton] at hb
    omega
  · split at hb
    · simp only [List.mem_cons, List.not_mem_nil, or_false] at hb
      rcases hb with h | h <;> omega
    · split at hb
      · simp only [List.mem_cons, List.not_mem_nil, or_false] at hb
        rcases hb with h | h | h <;> omega
      · simp only [List.mem_cons, List.not_mem_nil, or_false] at hb
        rcases hb with h | h | h | h <;> omega

theorem utf8Encode_lt (cs : List Char) : ∀ b ∈ utf8Encode cs, b < 256 := by
  induction cs with
  | nil => simp [utf8Encode]
  | cons c rest ih =>
    intro b hb
    simp only [utf8Encode, List.mem_append] at hb
    rcases hb with h | h
    · exact utf8EncodeChar_lt c b h
    · exact ih b h

theorem utf8EncodeChar_length_pos (c : Char) : 0 < (utf8EncodeChar c).length := by
  simp only [utf8EncodeChar]
  split
  · simp
  split
  · simp
  split
  · simp
  · simp

theorem utf8Step_encodeChar (c : Char) (r : List Nat) :
    utf8Step (utf8EncodeChar c ++ r) = some (c, r) := by
  have hv := char_toNat_lt c
  by_cases h1 : c.toNat < 0x80
  · have he : utf8EncodeChar c = [c.toNat] := by
      simp only [utf8EncodeChar]
      rw [if_pos h1]
    rw [he, List.cons_append, List.nil_append, utf8Step.eq_def]
    dsimp only
    rw [if_pos h1, Char.ofNat_toNat]
  · by_cases h2 : c.toNat < 0x800
    · have he : utf8EncodeChar c = [0xc0 + c.toNat / 64, 0x80 + c.toNat % 64] := by
        simp only [utf8EncodeChar]
        rw [if_neg h1, if_pos h2]
      rw [he, List.cons_append, List.cons_append, List.nil_append, utf8Step.eq_def]
      dsimp only
      rw [if_neg (by omega), if_neg (by omega), if_pos (by omega),
        if_pos (by simp only [isCont, Bool.and_eq_true, decide_eq_true_eq]; omega)]
      have hval : (0xc0 + c.toNat / 64 - 0xc0) * 64 + (0x80 + c.toNat % 64 - 0x80) = c.toNat := by
        omega
      rw [hval, Char.ofNat_toNat]
    · by_cases h3 : c.toNat < 0x10000
      · have he : utf8EncodeChar c =
            [0xe0 + c.toNat / 4096, 0x80 + c.toNat / 64 % 64, 0x80 + c.toNat % 64] := by
          simp only [utf8EncodeChar]
          rw [if_neg h1, if_neg h2, if_pos h3]
        rw [he, List.cons_append, List.cons_append, List.cons_append, List.nil_append,
          utf8Step.eq_def]
        dsimp only
        rw [if_neg (by omega), if_neg (by omega), if_neg (by omega), if_pos (by omega),
          if_pos (by simp only [isCont, Bool.and_eq_true, decide_eq_true_eq]; omega)]
        have hval : ((0xe0 + c.toNat / 4096 - 0xe0) * 64 + (0x80 + c.toNat / 64 % 64 - 0x80)) *
            64 + (0x80 + c.toNat % 64 - 0x80) = c.toNat := by omega
        rw [hval, Char.ofNat_toNat]
      · have he : utf8EncodeChar c = [0xf0 + c.toNat / 262144, 0x80 + c.toNat / 4096 % 64,
            0x80 + c.toNat / 64 % 64, 0x80 + c.toNat % 64] := by
          simp only [utf8EncodeChar]
          rw [if_neg h1, if_neg h2, if_neg h3]
        rw [he, List.cons_append, List.cons_append, List.cons_append, List.cons_append,
          List.nil_append, utf8Step.eq_def]
        dsimp only
        rw [if_neg (by omega), if_neg (by omega), if_neg (by omega), if_neg (by omega),
          if_pos (by simp only [isCont, Bool.and_eq_true, decide_eq_true_eq]; omega)]
        have hval : (((0xf0 + c.toNat / 262144 - 0xf0) * 64 + (0x80 + c.toNat / 4096 % 64 -
            0x80)) * 64 + (0x80 + c.toNat / 64 % 64 - 0x80)) * 64 +
            (0x80 + c.toNat % 64 - 0x80) = c.toNat := by omega
        rw [hval, Char.ofNat_toNat]

theorem utf8DecodeAux_encode (cs : List Char) : ∀ fuel, (utf8Encode cs).length ≤ fuel →
    utf8DecodeAux fuel (utf8Encode cs) = some cs := by
  induction cs with
  | nil => intro fuel _; cases fuel <;> rfl
  | cons c rest ih =>
    intro fuel hfuel
    have hlen : (utf8Encode (c :: rest)).length =
        (utf8EncodeChar c).length + (utf8Encode rest).length := by
      simp [utf8Encode]
    have hpos := utf8EncodeChar_length_pos c
    obtain ⟨f, rfl⟩ : ∃ f, fuel = f + 1 := by
      cases fuel with
      | zero => omega
      | succ f => exact ⟨f, rfl⟩
    obtain ⟨b, t, hb⟩ : ∃ b t, utf8Encode (c :: rest) = b :: t := by
      cases henc : utf8Encode (c :: rest) with
      | nil => rw [henc] at hlen; simp at hlen; omega
      | cons b t => exact ⟨b, t, rfl⟩
    rw [hb, utf8DecodeAux, ← hb]
    show (match utf8Step (utf8Encode (c :: rest)) with
      | none => none
      | some (c, rest) => (utf8DecodeAux f rest).map (fun cs => c :: cs)) = some (c :: rest)
    have hstep : utf8Step (utf8Encode (c :: rest)) = some (c, utf8Encode rest) := by
      show utf8Step (utf8EncodeChar c ++ utf8Encode rest) = _
      exact utf8Step_encodeChar c (utf8Encode rest)
    rw [hstep]
    dsimp only
    rw [ih f (by omega)]
    rfl

theorem utf8Decode_encode (cs : List Char) : utf8Decode (utf8Encode cs) = some cs :=
  utf8DecodeAux_encode cs (utf8Encode cs).length (Nat.le_refl _)

/-! ## Lemmas: JSON string escaping -/

theorem hexVal_hexDigit : ∀ v : Fin 16, hexVal (hexDigit v.val) = some v.val := by decide

theorem escChar_length_pos (c : Char) : 0 < (escChar c).length := by
  simp only [escChar]
  repeat' split
  all_goals simp

theorem readStrStep_quote (rest : List Char) : readStrStep ('"' :: rest) = .done rest := by
  rw [readStrStep.eq_def]
  dsimp only
  rw [if_pos rfl]

theorem readStrStep_escChar (c : Char) (tail : List Char) :
    readStrStep (escChar c ++ tail) = .chr c tail := by
  by_cases hq : c = '"'
  · subst hq
    simp only [escChar, if_pos rfl]
    rfl
  by_cases hbs : c = '\\'
  · subst hbs
    simp only [escChar, if_pos rfl, if_neg (show ¬('\\' = '"') by decide)]
    rfl
  by_cases h8 : c.toNat = 8
  · simp only [escChar, if_neg hq, if_neg hbs, if_pos h8]
    rw [show c = Char.ofNat 8 from by rw [← h8, Char.ofNat_toNat]]
    rfl
  by_cases h9 : c.toNat = 9
  · simp only [escChar, if_neg hq, if_neg hbs, if_neg h8, if_pos h9]
    rw [show c = Char.ofNat 9 from by rw [← h9, Char.ofNat_toNat]]
    rfl
  by_cases h10 : c.toNat = 10
  · simp only [escChar, if_neg hq, if_neg hbs, if_neg h8, if_neg h9, if_pos h10]
    rw [show c = Char.ofNat 10 from by rw [← h10, Char.ofNat_toNat]]
    rfl
  by_cases h12 : c.toNat = 12
  · simp only [escChar, if_neg hq, if_neg hbs, if_neg h8, if_neg h9, if_neg h10, if_pos h12]
    rw [show c = Char.ofNat 12 from by rw [← h12, Char.ofNat_toNat]]
    rfl
  by_cases h13 : c.toNat = 13
  · simp only [escChar, if_neg hq, if_neg hbs, if_neg h8, if_neg h9, if_neg h10, if_neg h12,
      if_pos h13]
    rw [show c = Char.ofNat 13 from by rw [← h13, Char.ofNat_toNat]]
    rfl
  by_cases hctl : c.toNat < 32
  · have he : escChar c =
        ['\\', 'u', '0', '0', hexDigit (c.toNat / 16), hexDigit (c.toNat % 16)] := by
      simp only [escChar, if_neg hq, if_neg hbs, if_neg h8, if_neg h9, if_neg h10, if_neg h12,
        if_neg h13, if_pos hctl]
    have hv0 : hexVal '0' = some 0 := by decide
    have hv2 : hexVal (hexDigit (c.toNat / 16)) = some (c.toNat / 16) :=
      hexVal_hexDigit ⟨c.toNat / 16, by omega⟩
    have hv3 : hexVal (hexDigit (c.toNat % 16)) = some (c.toNat % 16) :=
      hexVal_hexDigit ⟨c.toNat % 16, by omega⟩
    rw [he]
    show readStrStep ('\\' :: 'u' :: '0' :: '0' :: hexDigit (c.toNat / 16) ::
      hexDigit (c.toNat % 16) :: tail) = .chr c tail
    rw [readStrStep.eq_def]
    simp only [reduceIte, hv0, hv2, hv3]
    have hval : ((0 * 16 + 0) * 16 + c.toNat / 16) * 16 + c.toNat % 16 = c.toNat := by omega
    rw [hval, Char.ofNat_toNat, if_neg (show ¬(('\\' : Char) = '"') by decide)]
  · have he : escChar c = [c] := by
      simp only [escChar, if_neg hq, if_neg hbs, if_neg h8, if_neg h9, if_neg h10, if_neg h12,
        if_neg h13, if_neg hctl]
    rw [he]
    show readStrStep (c :: tail) = .chr c tail
    simp only [readStrStep.eq_def]
    rw [if_neg hq, if_neg hbs, if_neg hctl]

theorem readJsonStrAux_escape (s : List Char) : ∀ fuel rest,
    (jsonEscape s).length + 1 ≤ fuel →
    readJsonStrAux fuel (jsonEscape s ++ '"' :: rest) = some (s, rest) := by
  induction s with
  | nil =>
    intro fuel rest hfuel
    obtain ⟨f, rfl⟩ : ∃ f, fuel = f + 1 := by
      cases fuel with
      | zero => omega
      | succ f => exact ⟨f, rfl⟩
    show readJsonStrAux (f + 1) ('"' :: rest) = some ([], rest)
    rw [readJsonStrAux, readStrStep_quote]
  | cons c s ih =>
    intro fuel rest hfuel
    have hlen : (jsonEscape (c :: s)).length = (escChar c).length + (jsonEscape s).length := by
      simp [jsonEscape]
    have hpos := escChar_length_pos c
    obtain ⟨f, rfl⟩ : ∃ f, fuel = f + 1 := by
      cases fuel with
      | zero => omega
      | succ f => exact ⟨f, rfl⟩
    have hsplit : jsonEscape (c :: s) ++ '"' :: rest =
        escChar c ++ (jsonEscape s ++ '"' :: rest) := by
      simp [jsonEscape]
    rw [hsplit, readJsonStrAux, readStrStep_escChar]
    dsimp only
    rw [ih f rest (by omega)]
    rfl

theorem readJsonStr_escape (s : List Char) (rest : List Char) :
    readJsonStr (jsonEscape s ++ '"' :: rest) = some (s, rest) := by
  rw [readJsonStr]
  apply readJsonStrAux_escape
  simp only [List.length_append, List.length_cons]
  omega

/-! ## Lemmas: JSON integers -/

theorem isDigit_digitChar (d : Nat) (hd : d < 10) : (Char.ofNat (48 + d)).isDigit = true := by
  have : ∀ e : Fin 10, (Char.ofNat (48 + e.val)).isDigit = true := by decide
  exact this ⟨d, hd⟩

theorem toNat_digitChar (d : Nat) (hd : d < 10) : (Char.ofNat (48 + d)).toNat = 48 + d := by
  have : ∀ e : Fin 10, (Char.ofNat (48 + e.val)).toNat = 48 + e.val := by decide
  exact this ⟨d, hd⟩

/-- Reading mapped digit characters accumulates the base-10 value of
the most-significant-first digit list. -/
theorem readDigits_append (ds : List Nat) (hds : ∀ d ∈ ds, d < 10) (rest : List Char)
    (acc : Nat) :
    readDigits ((ds.map (fun d => Char.ofNat (48 + d))) ++ rest) acc =
      readDigits rest (acc * 10 ^ ds.length + Nat.ofDigits 10 ds.reverse) := by
  induction ds generalizing acc with
  | nil => simp [Nat.ofDigits]
  | cons d ds ih =>
    have hd : d < 10 := hds d (by simp)
    have hds' : ∀ x ∈ ds, x < 10 := fun x hx => hds x (by simp [hx])
    simp only [List.map_cons, List.cons_append, readDigits, isDigit_digitChar d hd, if_true,
      toNat_digitChar d hd, List.append_eq, Nat.add_sub_cancel_left]
    rw [ih hds']
    congr 1
    have : Nat.ofDigits 10 (ds.reverse ++ [d]) =
        Nat.ofDigits 10 ds.reverse + 10 ^ ds.length * d := by
      rw [Nat.ofDigits_append]
      simp [Nat.ofDigits]
    simp only [List.reverse_cons, this, List.length_cons]
    ring

theorem readDigits_stop (rest : List Char) (acc : Nat)
    (hrest : ∀ c t, rest = c :: t → c.isDigit = false) :
    readDigits rest acc = (acc, rest) := by
  cases rest with
  | nil => rfl
  | cons c t =>
    simp only [readDigits, hrest c t rfl]
    rfl

/-- `readNat` inverts the decimal rendering `natChars`, given that the
following character is not a digit. -/
theorem readNat_natChars (n : Nat) (rest : List Char)
    (hrest : ∀ c t, rest = c :: t → c.isDigit = false) :
    readNat (natChars n ++ rest) = some (n, rest) := by
  by_cases h0 : n = 0
  · subst h0
    show readNat ('0' :: rest) = some (0, rest)
    rw [readNat, if_pos (by decide)]
    have : readDigits ('0' :: rest) 0 = (0, rest) := by
      rw [readDigits, if_pos (by decide)]
      have : ('0' : Char).toNat - 48 = 0 := by decide
      rw [show (0 * 10 + (('0' : Char).toNat - 48)) = 0 from by decide]
      exact readDigits_stop rest 0 hrest
    rw [this]
  · have hne := (@Nat.digits_ne_nil_iff_ne_zero 10 n).mpr h0
    have hlt : ∀ d ∈ (Nat.digits 10 n).reverse, d < 10 := by
      intro d hd
      exact Nat.digits_lt_base (by norm_num) (List.mem_reverse.mp hd)
    have hchars : natChars n = ((Nat.digits 10 n).reverse.map
        (fun d => Char.ofNat (48 + d))) ++ [] := by
      simp only [natChars, if_neg h0, List.map_reverse, List.append_nil]
    obtain ⟨d, ds, hds⟩ : ∃ d ds, (Nat.digits 10 n).reverse = d :: ds := by
      cases hrev : (Nat.digits 10 n).reverse with
      | nil =>
        exact absurd (by simpa using congrArg List.reverse hrev) hne
      | cons d ds => exact ⟨d, ds, rfl⟩
    have hd : d < 10 := hlt d (by simp [hds])
    rw [hchars, List.append_nil, hds]
    simp only [List.map_cons, List.cons_append]
    rw [readNat, if_pos (isDigit_digitChar d hd)]
    have := readDigits_append (d :: ds) (by rw [← hds]; exact hlt) rest 0
    simp only [List.map_cons, List.cons_append] at this
    rw [this, readDigits_stop rest _ hrest]
    have hval : Nat.ofDigits 10 (d :: ds).reverse = n := by
      have : (d :: ds).reverse = Nat.digits 10 n := by
        rw [← hds, List.reverse_reverse]
      rw [this, Nat.ofDigits_digits]
    rw [hval]
    simp

/-! ## Lemmas: literal prefixes and payload parsing -/

theorem expectChars_append (pre rest : List Char) :
    expectChars (pre ++ rest) pre = some rest := by
  induction pre with
  | nil => simp [expectChars]
  | cons c pre ih =>
    show expectChars (c :: (pre ++ rest)) (c :: pre) = some rest
    rw [expectChars, if_pos rfl]
    exact ih

theorem expectChars_self (l : List Char) : expectChars l l = some [] := by
  have h := expectChars_append l []
  rwa [List.append_nil] at h

/-- A list starting with a non-digit head makes `readNat` stop exactly
at its boundary. -/
theorem nondigit_first (l : List Char) (d : Char) (hd : l.head? = some d)
    (hdig : d.isDigit = false) : ∀ c t, l = c :: t → c.isDigit = false := by
  intro c t h
  subst h
  simp only [List.head?_cons, Option.some.injEq] at hd
  rw [hd]
  exact hdig

/-- `JSON.parse` inverts `JSON.stringify` on the payload object. -/
theorem parsePayload_payloadJson (p : TokenPayload) :
    parsePayload (payloadJson p) = some p := by
  rw [parsePayload, payloadJson, expectChars_append, Option.some_bind, readJsonStr_escape,
    Option.some_bind]
  dsimp only
  rw [expectChars_append, Option.some_bind, readJsonStr_escape, Option.some_bind]
  dsimp only
  rw [expectChars_append, Option.some_bind, readJsonStr_escape, Option.some_bind]
  dsimp only
  rw [expectChars_append, Option.some_bind,
    readNat_natChars p.iat (",\"exp\":".data ++ (natChars p.exp ++ "\x7d".data))
      (nondigit_first (",\"exp\":".data ++ (natChars p.exp ++ "\x7d".data)) ',' rfl (by decide)),
    Option.some_bind]
  dsimp only
  rw [expectChars_append, Option.some_bind,
    readNat_natChars p.exp "\x7d".data
      (nondigit_first "\x7d".data '}' rfl (by decide)),
    Option.some_bind]
  dsimp only
  rw [expectChars_self, Option.some_bind]
  rfl

/-! ## Lemmas: digest and signature shape -/

theorem compLoop_length (l : List (Nat × Nat)) : ∀ st : List Nat, st.length = 8 →
    (compLoop l st).length = 8 := by
  induction l with
  | nil => intro st h; exact h
  | cons p rest ih =>
    intro st h
    obtain ⟨kt, wt⟩ := p
    exact ih _ (by simp)

theorem sha256Compress_length (hs block : List Nat) (h : hs.length = 8) :
    (sha256Compress hs block).length = 8 := by
  have hst := compLoop_length (sha256K.zip (extendW block 48)) hs h
  simp only [sha256Compress, List.length_map, List.length_zip, h, hst, Nat.min_self]

theorem foldl_compress_length (blocks : List (List Nat)) : ∀ hs : List Nat, hs.length = 8 →
    (blocks.foldl sha256Compress hs).length = 8 := by
  induction blocks with
  | nil => intro hs h; exact h
  | cons b rest ih =>
    intro hs h
    exact ih _ (sha256Compress_length hs b h)

theorem flatten_be32_length (hs : List Nat) : ((hs.map be32).flatten).length = 4 * hs.length := by
  induction hs with
  | nil => rfl
  | cons h rest ih =>
    simp only [List.map_cons, List.flatten_cons, List.length_append, ih, be32,
      List.length_cons, List.length_nil]
    omega

theorem sha256_length (m : List Nat) : (sha256 m).length = 32 := by
  rw [sha256, flatten_be32_length,
    foldl_compress_length _ sha256H0 (by decide)]

theorem hmacSha256_length (msg : List Nat) : (hmacSha256 msg).length = 32 :=
  sha256_length _

theorem hmacSig_length (msg : List Char) : (hmacSig msg).length = 44 := by
  rw [hmacSig, b64Encode_length, hmacSha256_length]

theorem hmacSig_no_dot (msg : List Char) : '.' ∉ hmacSig msg :=
  b64Encode_no_dot _

/-! ## Lemmas: token verification -/

theorem sigOf_no_dot (c : TokenClaims) (t : Nat) : '.' ∉ sigOf c t :=
  hmacSig_no_dot _

theorem sigOf_length (c : TokenClaims) (t : Nat) : (sigOf c t).length = 44 :=
  hmacSig_length _

/-- The expected decoded payload of a token issued at `nowSec`. -/
def tokenPayloadOf (c : TokenClaims) (nowSec : Nat) : TokenPayload :=
  ⟨c.id, c.username, c.profile, nowSec, nowSec + 24 * 60 * 60⟩

theorem bodyB64_eq (c : TokenClaims) (t : Nat) :
    bodyB64 c t = b64Encode (utf8Encode (payloadJson (tokenPayloadOf c t))) := rfl

theorem tokenWithSig_assoc (c : TokenClaims) (t : Nat) (s : List Char) :
    tokenWithSig c t s = headerB64 ++ '.' :: (bodyB64 c t ++ '.' :: s) := by
  simp [tokenWithSig, List.append_assoc]

theorem get?_zero_eq_head (l : List (List Char)) : l.get? 0 = l.head? := by
  cases l <;> rfl

theorem splitDot_token (c : TokenClaims) (t : Nat) (s : List Char) :
    splitDot (headerB64 ++ '.' :: (bodyB64 c t ++ '.' :: s)) =
      headerB64 :: bodyB64 c t :: splitDot s := by
  rw [splitDot_append_dot headerB64 (bodyB64 c t ++ '.' :: s)
      (show '.' ∉ headerB64 from b64Encode_no_dot _),
    splitDot_append_dot (bodyB64 c t) s (show '.' ∉ bodyB64 c t from b64Encode_no_dot _)]

/-- Verification of a well-signed token: whatever trails the body after
its separator, if the third split component is the correct signature
the payload round-trips and only the expiry check remains. -/
theorem verifyToken_core (c : TokenClaims) (t now : Nat) (s : List Char)
    (hs : (splitDot s).head? = some (sigOf c t)) :
    verifyToken (headerB64 ++ '.' :: (bodyB64 c t ++ '.' :: s)) now =
      if t + 24 * 60 * 60 < now then none else some (tokenPayloadOf c t) := by
  have hget2 : (splitDot (headerB64 ++ '.' :: (bodyB64 c t ++ '.' :: s))).get? 2 =
      some (sigOf c t) := by
    rw [splitDot_token]
    show (splitDot s).get? 0 = some (sigOf c t)
    rw [get?_zero_eq_head]
    exact hs
  have hget0 : (splitDot (headerB64 ++ '.' :: (bodyB64 c t ++ '.' :: s))).get? 0 =
      some headerB64 := by
    rw [splitDot_token]; rfl
  have hget1 : (splitDot (headerB64 ++ '.' :: (bodyB64 c t ++ '.' :: s))).get? 1 =
      some (bodyB64 c t) := by
    rw [splitDot_token]; rfl
  rw [verifyToken]
  rw [hget0, hget1, hget2]
  show (if sigOf c t ≠ sigOf c t then none
    else match (some (bodyB64 c t)).bind b64Decode with
      | none => none
      | some bytes =>
        match utf8Decode bytes with
        | none => none
        | some jsonChars =>
          match parsePayload jsonChars with
          | none => none
          | some p => if p.exp < now then none else some p) = _
  rw [if_neg (fun hne => hne rfl), Option.some_bind, bodyB64_eq,
    b64_roundtrip _ (utf8Encode_lt _)]
  dsimp only
  rw [utf8Decode_encode]
  dsimp only
  rw [parsePayload_payloadJson]
  rfl

/-- Verification with a wrong third split component fails at the
signature comparison. -/
theorem verifyToken_badsig (c : TokenClaims) (t now : Nat) (s u : List Char)
    (hu : (splitDot s).head? = some u) (hne : u ≠ sigOf c t) :
    verifyToken (headerB64 ++ '.' :: (bodyB64 c t ++ '.' :: s)) now = none := by
  have hget2 : (splitDot (headerB64 ++ '.' :: (bodyB64 c t ++ '.' :: s))).get? 2 =
      some u := by
    rw [splitDot_token]
    show (splitDot s).get? 0 = some u
    rw [get?_zero_eq_head]
    exact hu
  have hget0 : (splitDot (headerB64 ++ '.' :: (bodyB64 c t ++ '.' :: s))).get? 0 =
      some headerB64 := by
    rw [splitDot_token]; rfl
  have hget1 : (splitDot (headerB64 ++ '.' :: (bodyB64 c t ++ '.' :: s))).get? 1 =
      some (bodyB64 c t) := by
    rw [splitDot_token]; rfl
  rw [verifyToken]
  rw [hget0, hget1, hget2]
  show (if u ≠ sigOf c t then none
    else match (some (bodyB64 c t)).bind b64Decode with
      | none => none
      | some bytes =>
        match utf8Decode bytes with
        | none => none
        | some jsonChars =>
          match parsePayload jsonChars with
          | none => none
          | some p => if p.exp < now then none else some p) = none
  rw [if_pos hne]

/-- Fewer than three split components always fail: the destructured
signature is `undefined` and never equals the recomputed string. -/
theorem verifyToken_short (tok : List Char) (now : Nat)
    (h : (splitDot tok).length < 3) : verifyToken tok now = none := by
  have hget2 : (splitDot tok).get? 2 = none := by
    rw [List.get?_eq_getElem?]
    exact List.getElem?_eq_none (by omega)
  rw [verifyToken, hget2]

/-- Any list containing a dot splits as a dot-free prefix, the first
dot, and a remainder. -/
theorem dot_split (s : List Char) (h : '.' ∈ s) :
    ∃ u v, s = u ++ '.' :: v ∧ '.' ∉ u := by
  induction s with
  | nil => cases h
  | cons c s ih =>
    by_cases hc : c = '.'
    · subst hc
      exact ⟨[], s, rfl, by simp⟩
    · have hmem : '.' ∈ s := by
        rcases List.mem_cons.mp h with h1 | h1
        · exact absurd h1.symm hc
        · exact h1
      obtain ⟨u, v, huv, hnu⟩ := ih hmem
      refine ⟨c :: u, v, by rw [huv]; rfl, ?_⟩
      intro hmem2
      rcases List.mem_cons.mp hmem2 with h2 | h2
      · exact hc h2.symm
      · exact hnu h2

/-! ## Lemmas: store lookups under updates

`userStore.update` builds a new record, so lookups keyed on fields the
merge does not touch resolve to the merged record at the same
position. -/

theorem find?_map_pres (l : List UserRecord) (g : UserRecord → UserRecord)
    (p : UserRecord → Bool) (hp : ∀ r, p (g r) = p r) :
    (l.map g).find? p = (l.find? p).map g := by
  rw [List.find?_map]
  have : p ∘ g = p := funext fun r => hp r
  rw [this]

theorem resolveUser_update (store : List UserRecord) (key : String)
    (f : UserRecord → UserRecord) (hu : ∀ r, (f r).username = r.username)
    (he : ∀ r, (f r).email = r.email) (s : String) :
    resolveUser (updateRecord store key f) s =
      (resolveUser store s).map (fun r => if r.id == key then f r else r) := by
  have hg : ∀ (p : UserRecord → Bool), (∀ r, p (f r) = p r) →
      (updateRecord store key f).find? p =
        (store.find? p).map (fun r => if r.id == key then f r else r) := by
    intro p hp
    apply find?_map_pres
    intro r
    by_cases h : (r.id == key) = true
    · rw [if_pos h, hp r]
    · rw [if_neg h]
  rw [resolveUser, resolveUser]
  rw [show findByUsername (updateRecord store key f) s =
      (findByUsername store s).map (fun r => if r.id == key then f r else r) from
    hg _ (fun r => by simp only [jsLower, hu r])]
  cases hfu : findByUsername store s with
  | some u => rfl
  | none =>
    simp only [Option.map_none']
    exact hg _ (fun r => by simp only [jsLower, he r])

theorem resolveUser_update_self (store : List UserRecord) (s : String) (u : UserRecord)
    (hres : resolveUser store s = some u) (key : String) (hkey : u.id = key)
    (f : UserRecord → UserRecord) (hu : ∀ r, (f r).username = r.username)
    (he : ∀ r, (f r).email = r.email) :
    resolveUser (updateRecord store key f) s = some (f u) := by
  rw [resolveUser_update store key f hu he s, hres, Option.map_some']
  rw [if_pos (by rw [hkey]; exact beq_self_eq_true key)]

/-! ## Lemmas: login paths -/

/-- The unblock merge the 30-minute branch writes. -/
def unblockF : UserRecord → UserRecord := fun r =>
  { r with status := .ativo, loginAttempts := 0, lastLoginAttempt := none }

theorem userLogin_notBlocked (store : List UserRecord) (s : String) (u : UserRecord)
    (hres : resolveUser store s = some u) (hnb : u.status ≠ .bloqueado)
    (pw : String) (now : Nat) :
    userLogin store s pw now = loginContinue store u pw now := by
  rw [userLogin, hres]
  exact if_neg hnb

theorem userLogin_blocked_within (store : List UserRecord) (s : String) (u : UserRecord)
    (hres : resolveUser store s = some u) (hst : u.status = .bloqueado)
    (now : Nat) (hwin : (now : Int) - ((u.lastLoginAttempt.getD 0 : Nat) : Int) < 30 * 60 * 1000)
    (pw : String) :
    userLogin store s pw now = (store, .error .ACCOUNT_BLOCKED) := by
  rw [userLogin, hres]
  dsimp only
  rw [if_pos hst, if_pos hwin]

theorem userLogin_blocked_after (store : List UserRecord) (s : String) (u : UserRecord)
    (hres : resolveUser store s = some u) (hst : u.status = .bloqueado)
    (now : Nat)
    (hwin : ¬((now : Int) - ((u.lastLoginAttempt.getD 0 : Nat) : Int) < 30 * 60 * 1000))
    (pw : String) :
    userLogin store s pw now = loginContinue (updateRecord store u.id unblockF) u pw now := by
  rw [userLogin, hres]
  dsimp only
  rw [if_pos hst, if_neg hwin]
  rfl

theorem loginContinue_pending (store : List UserRecord) (u : UserRecord)
    (hst : u.status = .pendente) (pw : String) (now : Nat) :
    loginContinue store u pw now = (store, .error .ACCOUNT_PENDING) := by
  rw [loginContinue, if_pos hst]

/-- The reset merge a successful credential check writes. -/
def resetF : UserRecord → UserRecord := fun r =>
  { r with loginAttempts := 0, lastLoginAttempt := none }

/-- The increment merge a failed credential check below the threshold
writes; the count comes from the caller-held record, not the store. -/
def incF (attempts : Nat) (now : Nat) : UserRecord → UserRecord := fun r =>
  { r with loginAttempts := attempts, lastLoginAttempt := some now }

/-- The lock merge the third failure writes. -/
def lockF (attempts : Nat) (now : Nat) : UserRecord → UserRecord := fun r =>
  { r with loginAttempts := attempts, lastLoginAttempt := some now, status := .bloqueado }

theorem loginContinue_ok_eval (store : List UserRecord) (u : UserRecord) (pw : String)
    (now : Nat) (hnp : ¬(u.status = .pendente))
    (hcp : comparePassword pw u.passwordHash = true) :
    loginContinue store u pw now =
      (updateRecord store u.id resetF,
       .ok { id := u.id, username := u.username, email := u.email, profile := u.profile,
             token := String.mk (generateToken ⟨u.id, u.username, u.profile.str⟩
               (now / 1000)) }) := by
  rw [loginContinue, if_neg hnp, if_pos hcp]
  rfl

theorem loginContinue_wrong_low (store : List UserRecord) (u : UserRecord) (pw : String)
    (now : Nat) (hnp : ¬(u.status = .pendente))
    (hcp : comparePassword pw u.passwordHash = false)
    (hlow : u.loginAttempts + 1 < 3) :
    loginContinue store u pw now =
      (updateRecord store u.id (incF (u.loginAttempts + 1) now),
       .error .INVALID_CREDENTIALS) := by
  rw [loginContinue, if_neg hnp, if_neg (by rw [hcp]; exact Bool.false_ne_true),
    if_neg (by omega)]
  rfl

theorem loginContinue_wrong_high (store : List UserRecord) (u : UserRecord) (pw : String)
    (now : Nat) (hnp : ¬(u.status = .pendente))
    (hcp : comparePassword pw u.passwordHash = false)
    (hhigh : u.loginAttempts + 1 ≥ 3) :
    loginContinue store u pw now =
      (updateRecord store u.id (lockF (u.loginAttempts + 1) now),
       .error .ACCOUNT_BLOCKED) := by
  rw [loginContinue, if_neg hnp, if_neg (by rw [hcp]; exact Bool.false_ne_true),
    if_pos hhigh]
  rfl

/-! ## Claim theorems

The spec names the statuses in English (`pending`/`active`/`locked` for
the source's `pendente`/`ativo`/`bloqueado`), the lockout error
`ACCOUNT_LOCKED` for the source's `ACCOUNT_BLOCKED`, and the counters
`failedAttempts`/`lastFailedAt` for `loginAttempts`/`lastLoginAttempt`;
the theorems below use the source's names. -/

/-- C7: for every account with status `pendente` (pending), every login
attempt fails with ACCOUNT_PENDING regardless of the supplied password
— the result is the same for all passwords and the store is unchanged,
so the credential check is never reached. -/
theorem claim_C7_pending_login (store : List UserRecord) (s : String) (u : UserRecord)
    (hres : resolveUser store s = some u) (hst : u.status = .pendente) :
    ∀ (password : String) (now : Nat),
      userLogin store s password now = (store, .error .ACCOUNT_PENDING) := by
  intro pw now
  rw [userLogin_notBlocked store s u hres (by rw [hst]; decide) pw now]
  exact loginContinue_pending store u hst pw now

/-- The pending fixture account for the C7 witness; its password is
`Secret1!`, and the witness logs in with that correct password. -/
def userC7 : UserRecord :=
  { id := "id7", username := "carol", email := "carol@example.com",
    passwordHash := hashPassword "Secret1!", profile := .iniciante, avatar := none,
    status := .pendente, loginAttempts := 0, lastLoginAttempt := none,
    dateCreated := 0, dateModified := 0 }

theorem claim_C7_witness :
    userLogin [userC7] "carol" "Secret1!" 5 = ([userC7], .error .ACCOUNT_PENDING) :=
  claim_C7_pending_login [userC7] "carol" userC7 (by decide) rfl "Secret1!" 5

/-- C6: a login attempt against a `bloqueado` (locked) account whose
`lastLoginAttempt` is less than 30 minutes before `now` fails with
ACCOUNT_BLOCKED (the spec's ACCOUNT_LOCKED) for any password and leaves
the store — in particular `loginAttempts` — unchanged. -/
theorem claim_C6_locked_within_window (store : List UserRecord) (s : String) (u : UserRecord)
    (hres : resolveUser store s = some u) (hst : u.status = .bloqueado)
    (tLast : Nat) (hlast : u.lastLoginAttempt = some tLast) (now : Nat)
    (hwin : now < tLast + 30 * 60 * 1000) :
    ∀ password : String, userLogin store s password now = (store, .error .ACCOUNT_BLOCKED) := by
  intro pw
  apply userLogin_blocked_within store s u hres hst now _ pw
  rw [hlast]
  simp only [Option.getD_some]
  omega

/-- The locked fixture account for the C6 witness. -/
def userC6 : UserRecord :=
  { id := "id6", username := "dave", email := "dave@example.com",
    passwordHash := hashPassword "Secret1!", profile := .experiente, avatar := none,
    status := .bloqueado, loginAttempts := 3, lastLoginAttempt := some 1000,
    dateCreated := 0, dateModified := 0 }

theorem claim_C6_witness :
    userLogin [userC6] "dave" "Secret1!" 2000 = ([userC6], .error .ACCOUNT_BLOCKED) :=
  claim_C6_locked_within_window [userC6] "dave" userC6 (by decide) rfl 1000 rfl 2000
    (by decide) "Secret1!"

/-- C3: three consecutive wrong-password logins against an `ativo`
(active) account with `loginAttempts = 0` fail with INVALID_CREDENTIALS,
INVALID_CREDENTIALS, then ACCOUNT_BLOCKED (the spec's ACCOUNT_LOCKED),
and leave the account `bloqueado` with `loginAttempts = 3`. -/
theorem claim_C3_three_failures (store : List UserRecord) (s : String) (u : UserRecord)
    (hres : resolveUser store s = some u) (hst : u.status = .ativo)
    (hat : u.loginAttempts = 0) (p1 p2 p3 : String) (t1 t2 t3 : Nat)
    (h1 : comparePassword p1 u.passwordHash = false)
    (h2 : comparePassword p2 u.passwordHash = false)
    (h3 : comparePassword p3 u.passwordHash = false) :
    ∃ store1 store2 store3 : List UserRecord,
      userLogin store s p1 t1 = (store1, .error .INVALID_CREDENTIALS) ∧
      userLogin store1 s p2 t2 = (store2, .error .INVALID_CREDENTIALS) ∧
      userLogin store2 s p3 t3 = (store3, .error .ACCOUNT_BLOCKED) ∧
      resolveUser store3 s =
        some { u with
               status := .bloqueado, loginAttempts := 3, lastLoginAttempt := some t3 } := by
  have hnb : u.status ≠ .bloqueado := by rw [hst]; decide
  have hnp : ¬(u.status = .pendente) := by rw [hst]; decide
  have hres1 : resolveUser (updateRecord store u.id (incF (u.loginAttempts + 1) t1)) s =
      some (incF (u.loginAttempts + 1) t1 u) :=
    resolveUser_update_self store s u hres u.id rfl _ (fun r => rfl) (fun r => rfl)
  have hres2 : resolveUser (updateRecord (updateRecord store u.id (incF (u.loginAttempts + 1) t1))
      (incF (u.loginAttempts + 1) t1 u).id
      (incF ((incF (u.loginAttempts + 1) t1 u).loginAttempts + 1) t2)) s =
      some (incF ((incF (u.loginAttempts + 1) t1 u).loginAttempts + 1) t2
        (incF (u.loginAttempts + 1) t1 u)) :=
    resolveUser_update_self _ s _ hres1 _ rfl _ (fun r => rfl) (fun r => rfl)
  have e1 : userLogin store s p1 t1 =
      (updateRecord store u.id (incF (u.loginAttempts + 1) t1),
       .error .INVALID_CREDENTIALS) := by
    rw [userLogin_notBlocked store s u hres hnb p1 t1]
    exact loginContinue_wrong_low store u p1 t1 hnp h1 (by omega)
  have e2 : userLogin (updateRecord store u.id (incF (u.loginAttempts + 1) t1)) s p2 t2 =
      (updateRecord (updateRecord store u.id (incF (u.loginAttempts + 1) t1))
        (incF (u.loginAttempts + 1) t1 u).id
        (incF ((incF (u.loginAttempts + 1) t1 u).loginAttempts + 1) t2),
       .error .INVALID_CREDENTIALS) := by
    rw [userLogin_notBlocked _ s _ hres1 hnb p2 t2]
    refine loginContinue_wrong_low _ _ p2 t2 hnp h2 ?_
    show u.loginAttempts + 1 + 1 < 3
    omega
  have e3 : userLogin (updateRecord (updateRecord store u.id (incF (u.loginAttempts + 1) t1))
      (incF (u.loginAttempts + 1) t1 u).id
      (incF ((incF (u.loginAttempts + 1) t1 u).loginAttempts + 1) t2)) s p3 t3 =
      (updateRecord (updateRecord (updateRecord store u.id (incF (u.loginAttempts + 1) t1))
        (incF (u.loginAttempts + 1) t1 u).id
        (incF ((incF (u.loginAttempts + 1) t1 u).loginAttempts + 1) t2))
        (incF ((incF (u.loginAttempts + 1) t1 u).loginAttempts + 1) t2
          (incF (u.loginAttempts + 1) t1 u)).id
        (lockF ((incF ((incF (u.loginAttempts + 1) t1 u).loginAttempts + 1) t2
          (incF (u.loginAttempts + 1) t1 u)).loginAttempts + 1) t3),
       .error .ACCOUNT_BLOCKED) := by
    rw [userLogin_notBlocked _ s _ hres2 hnb p3 t3]
    refine loginContinue_wrong_high _ _ p3 t3 hnp h3 ?_
    show u.loginAttempts + 1 + 1 + 1 ≥ 3
    omega
  have e4 : resolveUser (updateRecord (updateRecord (updateRecord store u.id
      (incF (u.loginAttempts + 1) t1)) (incF (u.loginAttempts + 1) t1 u).id
      (incF ((incF (u.loginAttempts + 1) t1 u).loginAttempts + 1) t2))
      (incF ((incF (u.loginAttempts + 1) t1 u).loginAttempts + 1) t2
        (incF (u.loginAttempts + 1) t1 u)).id
      (lockF ((incF ((incF (u.loginAttempts + 1) t1 u).loginAttempts + 1) t2
        (incF (u.loginAttempts + 1) t1 u)).loginAttempts + 1) t3)) s =
      some { u with
             status := .bloqueado, loginAttempts := 3, lastLoginAttempt := some t3 } := by
    have hres3 := resolveUser_update_self _ s _ hres2
      (incF ((incF (u.loginAttempts + 1) t1 u).loginAttempts + 1) t2
        (incF (u.loginAttempts + 1) t1 u)).id rfl
      (lockF ((incF ((incF (u.loginAttempts + 1) t1 u).loginAttempts + 1) t2
        (incF (u.loginAttempts + 1) t1 u)).loginAttempts + 1) t3)
      (fun r => rfl) (fun r => rfl)
    refine hres3.trans (congrArg some ?_)
    show ({ u with
            status := .bloqueado, loginAttempts := u.loginAttempts + 1 + 1 + 1,
            lastLoginAttempt := some t3 } : UserRecord) =
      { u with
        status := .bloqueado, loginAttempts := 3, lastLoginAttempt := some t3 }
    rw [hat]
  exact ⟨_, _, _, e1, e2, e3, e4⟩

/-- The active fixture account for the C3 witness. -/
def userC3 : UserRecord :=
  { id := "id3", username := "erin", email := "erin@example.com",
    passwordHash := hashPassword "Secret1!", profile := .iniciante, avatar := none,
    status := .ativo, loginAttempts := 0, lastLoginAttempt := none,
    dateCreated := 0, dateModified := 0 }

theorem claim_C3_witness :
    ∃ store1 store2 store3 : List UserRecord,
      userLogin [userC3] "erin" "bad" 1 = (store1, .error .INVALID_CREDENTIALS) ∧
      userLogin store1 "erin" "bad" 2 = (store2, .error .INVALID_CREDENTIALS) ∧
      userLogin store2 "erin" "bad" 3 = (store3, .error .ACCOUNT_BLOCKED) ∧
      resolveUser store3 "erin" =
        some { userC3 with
               status := .bloqueado, loginAttempts := 3, lastLoginAttempt := some 3 } := by
  have hbad : comparePassword "bad" userC3.passwordHash = false := by decide
  exact claim_C3_three_failures [userC3] "erin" userC3 (by decide) rfl rfl
    "bad" "bad" "bad" 1 2 3 hbad hbad hbad

theorem loginContinue_ok_inv (store0 : List UserRecord) (u : UserRecord) (pw : String)
    (now : Nat) (store' : List UserRecord) (resp : UserLoginResponse)
    (hnp : ¬(u.status = .pendente))
    (h : loginContinue store0 u pw now = (store', .ok resp)) :
    comparePassword pw u.passwordHash = true ∧
    store' = updateRecord store0 u.id resetF ∧
    resp = { id := u.id, username := u.username, email := u.email, profile := u.profile,
             token := String.mk (generateToken ⟨u.id, u.username, u.profile.str⟩
               (now / 1000)) } := by
  by_cases hcp : comparePassword pw u.passwordHash = true
  · rw [loginContinue_ok_eval store0 u pw now hnp hcp] at h
    injection h with hA hB
    injection hB with hB
    exact ⟨hcp, hA.symm, hB.symm⟩
  · simp only [Bool.not_eq_true] at hcp
    by_cases h3 : u.loginAttempts + 1 ≥ 3
    · rw [loginContinue_wrong_high store0 u pw now hnp hcp h3] at h
      injection h with hA hB
      cases hB
    · rw [loginContinue_wrong_low store0 u pw now hnp hcp (by omega)] at h
      injection h with hA hB
      cases hB

/-- C9: whenever a login succeeds (which requires a correct password
against a non-pending, non-still-locked account, including the
automatic-unlock path), the stored record is left with
`loginAttempts = 0` and `lastLoginAttempt = none`, `dateModified` is
untouched, and the response carries the token generated from
`\x7bid, username, profile\x7d` (the spec's `\x7bid, username, tier\x7d`). -/
theorem claim_C9_success_frame (store : List UserRecord) (s pw : String) (now : Nat)
    (store' : List UserRecord) (resp : UserLoginResponse)
    (h : userLogin store s pw now = (store', .ok resp)) :
    ∃ u, resolveUser store s = some u ∧
      resp = { id := u.id, username := u.username, email := u.email, profile := u.profile,
               token := String.mk (generateToken ⟨u.id, u.username, u.profile.str⟩
                 (now / 1000)) } ∧
      resolveUser store' s =
        some { u with
               status := if u.status = .bloqueado then .ativo else u.status,
               loginAttempts := 0, lastLoginAttempt := none } ∧
      ({ u with
         status := if u.status = .bloqueado then .ativo else u.status,
         loginAttempts := 0, lastLoginAttempt := none } : UserRecord).dateModified =
        u.dateModified := by
  cases hres : resolveUser store s with
  | none =>
    rw [userLogin, hres] at h
    exact absurd (congrArg Prod.snd h) (by simp)
  | some u =>
    rw [userLogin, hres] at h
    dsimp only at h
    by_cases hb : u.status = .bloqueado
    · rw [if_pos hb] at h
      by_cases hwin : (now : Int) - ((u.lastLoginAttempt.getD 0 : Nat) : Int) < 30 * 60 * 1000
      · rw [if_pos hwin] at h
        exact absurd (congrArg Prod.snd h) (by simp)
      · rw [if_neg hwin] at h
        have hnp : ¬(u.status = .pendente) := by rw [hb]; decide
        obtain ⟨hcp, hst', hresp⟩ := loginContinue_ok_inv _ u pw now store' resp hnp h
        refine ⟨u, rfl, hresp, ?_, rfl⟩
        have hres1 : resolveUser (updateRecord store u.id unblockF) s =
            some (unblockF u) :=
          resolveUser_update_self store s u hres u.id rfl unblockF
            (fun r => rfl) (fun r => rfl)
        have hres2 : resolveUser (updateRecord (updateRecord store u.id unblockF) u.id
            resetF) s = some (resetF (unblockF u)) :=
          resolveUser_update_self _ s _ hres1 u.id rfl resetF (fun r => rfl) (fun r => rfl)
        rw [hst']
        rw [if_pos hb]
        exact hres2
    · rw [if_neg hb] at h
      by_cases hp : u.status = .pendente
      · rw [loginContinue_pending store u hp pw now] at h
        exact absurd (congrArg Prod.snd h) (by simp)
      · obtain ⟨hcp, hst', hresp⟩ := loginContinue_ok_inv store u pw now store' resp hp h
        refine ⟨u, rfl, hresp, ?_, rfl⟩
        have hres1 : resolveUser (updateRecord store u.id resetF) s = some (resetF u) :=
          resolveUser_update_self store s u hres u.id rfl resetF (fun r => rfl) (fun r => rfl)
        rw [hst']
        rw [if_neg hb]
        exact hres1

/-- The active fixture account for the C9 witness; its password is
`Secret1!`, with which the witness logs in successfully. -/
def userC9 : UserRecord :=
  { id := "id9", username := "frank", email := "frank@example.com",
    passwordHash := hashPassword "Secret1!", profile := .experiente, avatar := none,
    status := .ativo, loginAttempts := 2, lastLoginAttempt := some 3,
    dateCreated := 0, dateModified := 42 }

theorem claim_C9_witness :
    ∃ u, resolveUser [userC9] "frank" = some u ∧
      ({ id := userC9.id, username := userC9.username, email := userC9.email,
         profile := userC9.profile,
         token := String.mk (generateToken ⟨userC9.id, userC9.username,
           userC9.profile.str⟩ (5 / 1000)) } : UserLoginResponse) =
        { id := u.id, username := u.username, email := u.email, profile := u.profile,
          token := String.mk (generateToken ⟨u.id, u.username, u.profile.str⟩ (5 / 1000)) } ∧
      resolveUser (updateRecord [userC9] userC9.id resetF) "frank" =
        some { u with
               status := if u.status = .bloqueado then .ativo else u.status,
               loginAttempts := 0, lastLoginAttempt := none } ∧
      ({ u with
         status := if u.status = .bloqueado then .ativo else u.status,
         loginAttempts := 0, lastLoginAttempt := none } : UserRecord).dateModified =
        u.dateModified :=
  claim_C9_success_frame [userC9] "frank" "Secret1!" 5
    (updateRecord [userC9] userC9.id resetF)
    { id := userC9.id, username := userC9.username, email := userC9.email,
      profile := userC9.profile,
      token := String.mk (generateToken ⟨userC9.id, userC9.username,
        userC9.profile.str⟩ (5 / 1000)) }
    (by rfl)

/-- C8: a registration whose username and email collide with no stored
account (the store lookups are case-insensitive) succeeds; the created
record has `status = pendente`, `loginAttempts = 0`,
`dateCreated = dateModified = now`, and the returned public projection
is exactly the hash-free tuple below — it has no credential-hash field
and does not depend on the password. -/
theorem claim_C8_register_success (store : List UserRecord)
    (username email password : String) (profile : UserTier) (now : Nat) (newId : String)
    (hu : findByUsername store username = none) (he : findByEmail store email = none) :
    userRegister store username email password profile now newId =
      (addRecord store
        { id := newId, username := username, email := email,
          passwordHash := hashPassword password, profile := profile, avatar := none,
          status := .pendente, loginAttempts := 0, lastLoginAttempt := none,
          dateCreated := now, dateModified := now },
       .ok { id := newId, username := username, email := email, profile := profile,
             avatar := none, status := .pendente, dateCreated := now }) := by
  rw [userRegister, hu, he]
  rfl

theorem claim_C8_witness :
    userRegister [] "gina" "gina@example.com" "Secret1!" .iniciante 9 "id8" =
      (addRecord []
        { id := "id8", username := "gina", email := "gina@example.com",
          passwordHash := hashPassword "Secret1!", profile := .iniciante, avatar := none,
          status := .pendente, loginAttempts := 0, lastLoginAttempt := none,
          dateCreated := 9, dateModified := 9 },
       .ok { id := "id8", username := "gina", email := "gina@example.com",
             profile := .iniciante, avatar := none, status := .pendente,
             dateCreated := 9 }) :=
  claim_C8_register_success [] "gina" "gina@example.com" "Secret1!" .iniciante 9 "id8"
    rfl rfl

/-- C5: in a store whose emails are pairwise distinct under
case-insensitive comparison (the data-model uniqueness invariant),
updating account `A` with an email that case-insensitively equals a
different account `B`'s email fails with DUPLICATE_EMAIL and returns
the store unchanged, so both records are exactly as before. -/
theorem claim_C5_duplicate_email_update (store : List UserRecord) (aid : String)
    (A B : UserRecord) (e : String) (now : Nat)
    (hA : getById store aid = some A) (hB : B ∈ store) (hid : B.id ≠ A.id)
    (hpair : store.Pairwise (fun r1 r2 => jsLower r1.email ≠ jsLower r2.email))
    (he : jsLower e = jsLower B.email) :
    userUpdateProfile store aid ⟨none, some e, none, none⟩ now =
      (store, .error .DUPLICATE_EMAIL) := by
  have hAmem : A ∈ store := List.mem_of_find?_eq_some hA
  have hBA : A ≠ B := fun hAB => hid (by rw [hAB])
  have hsym : Symmetric (fun r1 r2 : UserRecord => jsLower r1.email ≠ jsLower r2.email) :=
    fun r1 r2 h12 => fun hq => h12 hq.symm
  have hAB : jsLower A.email ≠ jsLower B.email :=
    hpair.forall hsym hAmem hB hBA
  have hne : e ≠ A.email := fun heq => hAB (by rw [← heq, he])
  rw [userUpdateProfile, hA]
  dsimp only
  rw [if_neg (by simp [Option.any])]
  have hfind : (findByEmail store e).isSome = true := by
    rw [findByEmail, List.find?_isSome]
    exact ⟨B, hB, by rw [he]; exact beq_self_eq_true _⟩
  rw [if_pos ?_]
  simp only [Option.any, bne_iff_ne, ne_eq, Bool.and_eq_true, decide_eq_true_eq]
  exact ⟨hne, hfind⟩

/-- Fixture accounts for the C5 witness. -/
def userC5A : UserRecord :=
  { id := "id5a", username := "henry", email := "henry@example.com",
    passwordHash := hashPassword "Secret1!", profile := .iniciante, avatar := none,
    status := .ativo, loginAttempts := 0, lastLoginAttempt := none,
    dateCreated := 0, dateModified := 0 }

def userC5B : UserRecord :=
  { id := "id5b", username := "irene", email := "irene@example.com",
    passwordHash := hashPassword "Secret1!", profile := .experiente, avatar := none,
    status := .ativo, loginAttempts := 0, lastLoginAttempt := none,
    dateCreated := 0, dateModified := 0 }

theorem claim_C5_witness :
    userUpdateProfile [userC5A, userC5B] "id5a" ⟨none, some "Irene@Example.COM", none, none⟩ 7 =
      ([userC5A, userC5B], .error .DUPLICATE_EMAIL) :=
  claim_C5_duplicate_email_update [userC5A, userC5B] "id5a" userC5A userC5B
    "Irene@Example.COM" 7 (by decide) (by decide) (by decide) (by decide) (by decide)

/-- C10: updating an account's username (respectively email) to a value
differing from its own current one only in letter case fails with
DUPLICATE_USERNAME (respectively DUPLICATE_EMAIL): the changed-value
check is case-sensitive while the uniqueness scan is case-insensitive
and does not exclude the account being updated, so the account collides
with itself. -/
theorem claim_C10_self_case_collision :
    (∀ (store : List UserRecord) (aid : String) (A : UserRecord) (un : String) (now : Nat),
      getById store aid = some A → un ≠ A.username → jsLower un = jsLower A.username →
      userUpdateProfile store aid ⟨some un, none, none, none⟩ now =
        (store, .error .DUPLICATE_USERNAME)) ∧
    (∀ (store : List UserRecord) (aid : String) (A : UserRecord) (e : String) (now : Nat),
      getById store aid = some A → e ≠ A.email → jsLower e = jsLower A.email →
      userUpdateProfile store aid ⟨none, some e, none, none⟩ now =
        (store, .error .DUPLICATE_EMAIL)) := by
  constructor
  · intro store aid A un now hA hne hcase
    have hAmem : A ∈ store := List.mem_of_find?_eq_some hA
    rw [userUpdateProfile, hA]
    dsimp only
    have hfind : (findByUsername store un).isSome = true := by
      rw [findByUsername, List.find?_isSome]
      exact ⟨A, hAmem, by rw [hcase]; exact beq_self_eq_true _⟩
    rw [if_pos ?_]
    simp only [Option.any, bne_iff_ne, ne_eq, Bool.and_eq_true, decide_eq_true_eq]
    exact ⟨hne, hfind⟩
  · intro store aid A e now hA hne hcase
    have hAmem : A ∈ store := List.mem_of_find?_eq_some hA
    rw [userUpdateProfile, hA]
    dsimp only
    have hfind : (findByEmail store e).isSome = true := by
      rw [findByEmail, List.find?_isSome]
      exact ⟨A, hAmem, by rw [hcase]; exact beq_self_eq_true _⟩
    rw [if_neg (by simp [Option.any])]
    rw [if_pos ?_]
    simp only [Option.any, bne_iff_ne, ne_eq, Bool.and_eq_true, decide_eq_true_eq]
    exact ⟨hne, hfind⟩

/-- Fixture account for the C10 witness. -/
def userC10 : UserRecord :=
  { id := "id10", username := "Judy", email := "judy@example.com",
    passwordHash := hashPassword "Secret1!", profile := .iniciante, avatar := none,
    status := .ativo, loginAttempts := 0, lastLoginAttempt := none,
    dateCreated := 0, dateModified := 0 }

theorem claim_C10_witness :
    userUpdateProfile [userC10] "id10" ⟨some "JUDY", none, none, none⟩ 7 =
      ([userC10], .error .DUPLICATE_USERNAME) ∧
    userUpdateProfile [userC10] "id10" ⟨none, some "Judy@Example.com", none, none⟩ 7 =
      ([userC10], .error .DUPLICATE_EMAIL) :=
  ⟨claim_C10_self_case_collision.1 [userC10] "id10" userC10 "JUDY" 7
      (by decide) (by decide) (by decide),
   claim_C10_self_case_collision.2 [userC10] "id10" userC10 "Judy@Example.com" 7
      (by decide) (by decide) (by decide)⟩

/-- Fixture for C1: an account locked by three failed attempts at time
0, exactly as the login flow leaves it. -/
def userC1 : UserRecord :=
  { id := "id1", username := "alice", email := "alice@example.com",
    passwordHash := hashPassword "Correct1!", profile := .iniciante, avatar := none,
    status := .bloqueado, loginAttempts := 3, lastLoginAttempt := some 0,
    dateCreated := 0, dateModified := 0 }

/-- C1 (code behaviour at the failing input): a wrong-password login
against a locked account 30 minutes after `lastLoginAttempt` does NOT
end `ativo` with `loginAttempts = 1` and INVALID_CREDENTIALS, as the
spec prescribes.  The unlock branch writes `loginAttempts := 0` to the
store, but the subsequent increment reads the caller-held pre-unlock
record (`userStore.update` builds a new object), so `newAttempts`
becomes 3 + 1 = 4 ≥ 3 and the account is immediately re-locked with
ACCOUNT_BLOCKED; the unlock's reset write is dead on this path. -/
theorem claim_C1_stale_relock :
    userLogin [userC1] "alice" "wrong" (30 * 60 * 1000) =
      ([{ userC1 with
          status := .bloqueado, loginAttempts := 4,
          lastLoginAttempt := some (30 * 60 * 1000) }],
       .error .ACCOUNT_BLOCKED) := by
  rfl

theorem generate_append_x (c : TokenClaims) (iat : Nat) :
    generateToken c iat ++ ".x".data =
      headerB64 ++ '.' :: (bodyB64 c iat ++ '.' :: (sigOf c iat ++ '.' :: ['x'])) := by
  show tokenWithSig c iat (sigOf c iat) ++ ['.', 'x'] = _
  rw [tokenWithSig_assoc]
  simp [List.append_assoc]

/-- C4: issue/verify round trip.  Within the 24-hour window `verify`
returns the claims unchanged plus `iat` and `exp = iat + 24h`; after
expiry it fails; and with the signature component replaced by any
different same-length character list (in particular any single-byte
alteration) it fails. -/
theorem claim_C4_token_roundtrip :
    ∀ (c : TokenClaims) (iat : Nat),
      (∀ now : Nat, now < iat + 24 * 60 * 60 →
        verifyToken (generateToken c iat) now =
          some ⟨c.id, c.username, c.profile, iat, iat + 24 * 60 * 60⟩) ∧
      (∀ now : Nat, iat + 24 * 60 * 60 < now →
        verifyToken (generateToken c iat) now = none) ∧
      (∀ (now : Nat) (s : List Char), s.length = (sigOf c iat).length →
        s ≠ sigOf c iat → verifyToken (tokenWithSig c iat s) now = none) := by
  intro c iat
  have hself : (splitDot (sigOf c iat)).head? = some (sigOf c iat) := by
    rw [splitDot_no_dot _ (sigOf_no_dot c iat)]
    rfl
  refine ⟨?_, ?_, ?_⟩
  · intro now h
    rw [show generateToken c iat = tokenWithSig c iat (sigOf c iat) from rfl,
      tokenWithSig_assoc, verifyToken_core c iat now (sigOf c iat) hself,
      if_neg (by omega)]
    rfl
  · intro now h
    rw [show generateToken c iat = tokenWithSig c iat (sigOf c iat) from rfl,
      tokenWithSig_assoc, verifyToken_core c iat now (sigOf c iat) hself,
      if_pos h]
  · intro now s hlen hne
    rw [tokenWithSig_assoc]
    by_cases hdot : '.' ∈ s
    · obtain ⟨u, v, huv, hnu⟩ := dot_split s hdot
      have hulen : u.length < s.length := by
        rw [huv]
        simp only [List.length_append, List.length_cons]
        omega
      refine verifyToken_badsig c iat now s u ?_ ?_
      · rw [huv, splitDot_append_dot u v hnu]
        rfl
      · intro hequ
        rw [hequ, ← hlen] at hulen
        exact absurd hulen (by omega)
    · exact verifyToken_badsig c iat now s s
        (by rw [splitDot_no_dot s hdot]; rfl) hne

/-- Fixture claims for the C4 witness. -/
def claimsC4 : TokenClaims := ⟨"u4", "mona", "experiente"⟩

theorem claim_C4_witness :
    verifyToken (generateToken claimsC4 0) 5 =
      some ⟨"u4", "mona", "experiente", 0, 86400⟩ ∧
    verifyToken (generateToken claimsC4 0) 86401 = none ∧
    verifyToken (tokenWithSig claimsC4 0 ('.' :: (sigOf claimsC4 0).drop 1)) 7 = none := by
  have hlen : ('.' :: (sigOf claimsC4 0).drop 1).length = (sigOf claimsC4 0).length := by
    rw [List.length_cons, List.length_drop, sigOf_length]
  have hne : '.' :: (sigOf claimsC4 0).drop 1 ≠ sigOf claimsC4 0 := fun h =>
    sigOf_no_dot claimsC4 0 (by rw [← h]; exact List.mem_cons_self _ _)
  exact ⟨(claim_C4_token_roundtrip claimsC4 0).1 5 (by decide),
    (claim_C4_token_roundtrip claimsC4 0).2.1 86401 (by decide),
    (claim_C4_token_roundtrip claimsC4 0).2.2 7 _ hlen hne⟩

/-- Fixture claims for the C2 counterexample. -/
def claimsC2 : TokenClaims := ⟨"u2", "kate", "iniciante"⟩

/-- C2 counterexample: a validly issued token with `.x` appended splits
into four dot-separated components, yet verification succeeds — so it
is not true that every input failing to split into exactly three
components yields InvalidToken. -/
theorem claim_C2_counterexample :
    (splitDot (generateToken claimsC2 0 ++ ".x".data)).length = 4 ∧
    verifyToken (generateToken claimsC2 0 ++ ".x".data) 0 =
      some ⟨"u2", "kate", "iniciante", 0, 86400⟩ := by
  constructor
  · rw [generate_append_x, splitDot_token,
      splitDot_append_dot _ _ (sigOf_no_dot claimsC2 0), splitDot_no_dot ['x'] (by decide)]
    rfl
  · rw [generate_append_x, verifyToken_core claimsC2 0 0 _
      (by rw [splitDot_append_dot _ _ (sigOf_no_dot claimsC2 0)]; rfl),
      if_neg (by omega)]
    rfl

/-- C2 (amended): an input splitting into fewer than three components
always fails with InvalidToken; but components beyond the third are
ignored by the destructuring, so an input with four or more components
verifies whenever its first three form a valid unexpired token — e.g.
any issued token with `.x` appended. -/
theorem claim_C2_amended :
    (∀ (tok : List Char) (now : Nat), (splitDot tok).length < 3 →
      verifyToken tok now = none) ∧
    (∀ (c : TokenClaims) (iat now : Nat), ¬(iat + 24 * 60 * 60 < now) →
      verifyToken (generateToken c iat ++ ".x".data) now =
        some ⟨c.id, c.username, c.profile, iat, iat + 24 * 60 * 60⟩) := by
  constructor
  · exact fun tok now h => verifyToken_short tok now h
  · intro c iat now h
    rw [generate_append_x, verifyToken_core c iat now _
      (by rw [splitDot_append_dot _ _ (sigOf_no_dot c iat)]; rfl),
      if_neg h]
    rfl

theorem claim_C2_amended_witness :
    verifyToken "ab".data 0 = none ∧
    verifyToken (generateToken ⟨"u2w", "lena", "iniciante"⟩ 3 ++ ".x".data) 5 =
      some ⟨"u2w", "lena", "iniciante", 3, 86403⟩ :=
  ⟨claim_C2_amended.1 "ab".data 0 (by decide),
   claim_C2_amended.2 ⟨"u2w", "lena", "iniciante"⟩ 3 5 (by decide)⟩
